import Mathlib

/-!
Verification of the scheduling engine of cfb_schedule_helper (src/scheduler.py).

The two core routines, find_schedule and set_game_locations, are shallowly
embedded below.  Python dictionaries become association lists (insertion
order preserved, updates in place, new keys appended), the heapq-backed
PriorityQueue becomes a list from which the least element (by the same
lexicographic tuple order Python uses) is extracted, the global Mersenne
Twister becomes an explicit stream of rationals in [0, 1) threaded through
the state, and exceptions (KeyError on a missing dictionary key, ValueError
from list.remove, ZeroDivisionError, AssertionError) become Option/Except
failures.  Team names are opaque identifiers with a total order in the
source (string comparison); they are modelled as naturals.
-/

namespace CFB

/-! ## Association lists standing in for Python dicts -/

abbrev Team := Nat

abbrev Matchup := Nat × Nat

/-- The `_matchup` helper of scheduler.py: the unordered pair in canonical order. -/
def matchupOf (t1 t2 : Team) : Matchup := (min t1 t2, max t1 t2)

abbrev Dict (α β : Type) := List (α × β)

def dkeys {α β : Type} (d : Dict α β) : List α := d.map Prod.fst

def dlookup {α β : Type} [DecidableEq α] (d : Dict α β) (k : α) : Option β :=
  match d with
  | [] => none
  | (k', v) :: rest => if k' = k then some v else dlookup rest k

/-- Python `d[k] = v`: update in place if the key exists, else append. -/
def dset {α β : Type} [DecidableEq α] (d : Dict α β) (k : α) (v : β) : Dict α β :=
  match d with
  | [] => [(k, v)]
  | (k', v') :: rest => if k' = k then (k', v) :: rest else (k', v') :: dset rest k v

/-- Python `del d[k]` with the key known present: drop the first binding of `k`. -/
def ddel {α β : Type} [DecidableEq α] (d : Dict α β) (k : α) : Dict α β :=
  match d with
  | [] => []
  | (k', v') :: rest => if k' = k then rest else (k', v') :: ddel rest k

theorem dlookup_dset_self {α β : Type} [DecidableEq α] (d : Dict α β) (k : α) (v : β) :
    dlookup (dset d k v) k = some v := by
  induction d with
  | nil => simp [dset, dlookup]
  | cons p rest ih =>
    obtain ⟨k', v'⟩ := p
    by_cases h : k' = k <;> simp [dset, dlookup, h, ih]

theorem dlookup_dset_ne {α β : Type} [DecidableEq α] (d : Dict α β) (k k' : α) (v : β)
    (h : k' ≠ k) : dlookup (dset d k v) k' = dlookup d k' := by
  induction d with
  | nil => simp [dset, dlookup, Ne.symm h]
  | cons p rest ih =>
    obtain ⟨a, b⟩ := p
    by_cases ha : a = k
    · subst ha
      simp [dset, dlookup, Ne.symm h]
    · simp only [dset, if_neg ha, dlookup]
      by_cases hb : a = k' <;> simp [hb, ih]

theorem dlookup_ddel_ne {α β : Type} [DecidableEq α] (d : Dict α β) (k k' : α)
    (h : k' ≠ k) : dlookup (ddel d k) k' = dlookup d k' := by
  induction d with
  | nil => simp [ddel]
  | cons p rest ih =>
    obtain ⟨a, b⟩ := p
    by_cases ha : a = k
    · subst ha
      simp [ddel, dlookup, Ne.symm h]
    · simp only [ddel, if_neg ha, dlookup]
      by_cases hb : a = k' <;> simp [hb, ih]

theorem dlookup_eq_none_of_not_mem {α β : Type} [DecidableEq α] (d : Dict α β) (k : α)
    (h : k ∉ dkeys d) : dlookup d k = none := by
  induction d with
  | nil => rfl
  | cons p rest ih =>
    obtain ⟨a, b⟩ := p
    simp only [dkeys, List.map_cons, List.mem_cons, not_or] at h
    have hak : a ≠ k := fun hk => h.1 hk.symm
    simp only [dlookup, if_neg hak]
    exact ih h.2

theorem mem_dkeys_of_dlookup {α β : Type} [DecidableEq α] (d : Dict α β) (k : α)
    (h : (dlookup d k).isSome) : k ∈ dkeys d := by
  induction d with
  | nil => simp [dlookup] at h
  | cons p rest ih =>
    obtain ⟨a, b⟩ := p
    simp only [dlookup] at h
    by_cases ha : a = k
    · simp [dkeys, ha]
    · simp only [if_neg ha] at h
      simp only [dkeys, List.map_cons, List.mem_cons]
      exact Or.inr (ih h)

theorem dlookup_isSome_of_mem_dkeys {α β : Type} [DecidableEq α] (d : Dict α β) (k : α)
    (h : k ∈ dkeys d) : (dlookup d k).isSome := by
  induction d with
  | nil => simp [dkeys] at h
  | cons p rest ih =>
    obtain ⟨a, b⟩ := p
    simp only [dkeys, List.map_cons, List.mem_cons] at h
    by_cases ha : a = k
    · simp [dlookup, ha]
    · simp only [dlookup, if_neg ha]
      exact ih (h.resolve_left (fun hk => ha hk.symm))

theorem dlookup_ddel_self {α β : Type} [DecidableEq α] (d : Dict α β) (k : α)
    (hnd : (dkeys d).Nodup) : dlookup (ddel d k) k = none := by
  induction d with
  | nil => rfl
  | cons p rest ih =>
    obtain ⟨a, b⟩ := p
    simp only [dkeys, List.map_cons, List.nodup_cons] at hnd
    by_cases ha : a = k
    · subst ha
      simp only [ddel, if_pos rfl]
      exact dlookup_eq_none_of_not_mem rest a hnd.1
    · simp only [ddel, if_neg ha, dlookup, if_neg ha]
      exact ih hnd.2

theorem dkeys_dset {α β : Type} [DecidableEq α] (d : Dict α β) (k : α) (v : β)
    (h : k ∈ dkeys d) : dkeys (dset d k v) = dkeys d := by
  induction d with
  | nil => simp [dkeys] at h
  | cons p rest ih =>
    obtain ⟨a, b⟩ := p
    by_cases ha : a = k
    · simp [dset, ha, dkeys]
    · simp only [dkeys, List.map_cons, List.mem_cons] at h
      have h' : k ∈ dkeys rest := h.resolve_left (fun hk => ha hk.symm)
      have hr := ih h'
      simp only [dkeys] at hr
      simp [dset, if_neg ha, dkeys, hr]

theorem dkeys_dset_not_mem {α β : Type} [DecidableEq α] (d : Dict α β) (k : α) (v : β)
    (h : k ∉ dkeys d) : dkeys (dset d k v) = dkeys d ++ [k] := by
  induction d with
  | nil => simp [dset, dkeys]
  | cons p rest ih =>
    obtain ⟨a, b⟩ := p
    simp only [dkeys, List.map_cons, List.mem_cons, not_or] at h
    have hak : a ≠ k := fun hk => h.1 hk.symm
    have hr := ih h.2
    simp only [dkeys] at hr
    simp [dset, if_neg hak, dkeys, hr]

/-! ## Random stream, sorted lists, and the weighted week choice -/

/-- Global random state of the Python process: a stream of draws plus a cursor.
Each draw is normalized into [0, 1), the range of Python's random.random(). -/
structure RNG where
  stream : Nat → Rat
  idx : Nat

def RNG.next (g : RNG) : Rat × RNG :=
  let u := g.stream g.idx
  (if 0 ≤ u ∧ u < 1 then u else 0, ⟨g.stream, g.idx + 1⟩)

def insertAsc (x : Nat) : List Nat → List Nat
  | [] => [x]
  | y :: ys => if x ≤ y then x :: y :: ys else y :: insertAsc x ys

/-- Python's sorted(), specialised to ascending naturals. -/
def sortAsc (l : List Nat) : List Nat := l.foldr insertAsc []

theorem insertAsc_perm (x : Nat) (l : List Nat) : List.Perm (insertAsc x l) (x :: l) := by
  induction l with
  | nil => rfl
  | cons y ys ih =>
    by_cases h : x ≤ y
    · simp [insertAsc, h]
    · simp only [insertAsc, if_neg h]
      exact (List.Perm.cons y ih).trans (List.Perm.swap x y ys)

theorem sortAsc_perm (l : List Nat) : List.Perm (sortAsc l) l := by
  induction l with
  | nil => rfl
  | cons x xs ih => exact (insertAsc_perm x (sortAsc xs)).trans (List.Perm.cons x ih)

theorem mem_sortAsc {x : Nat} {l : List Nat} : x ∈ sortAsc l ↔ x ∈ l :=
  (sortAsc_perm l).mem_iff

/-- SortedList(set(a) & set(b)): ascending duplicate-free list of common elements. -/
def sortedInter (a b : List Nat) : List Nat :=
  sortAsc ((a.filter (fun x => decide (x ∈ b))).dedup)

theorem mem_sortedInter {x : Nat} {a b : List Nat} :
    x ∈ sortedInter a b ↔ x ∈ a ∧ x ∈ b := by
  simp [sortedInter, mem_sortAsc, List.mem_dedup, List.mem_filter]

theorem sortedInter_nodup (a b : List Nat) : (sortedInter a b).Nodup :=
  ((sortAsc_perm _).nodup_iff).2 (List.nodup_dedup _)

theorem sortedInter_eq_nil_of_disjoint {a b : List Nat}
    (h : ∀ x ∈ a, x ∉ b) : sortedInter a b = [] := by
  have : (a.filter (fun x => decide (x ∈ b))) = [] := by
    apply List.filter_eq_nil_iff.2
    intro x hx
    simpa using h x hx
  simp [sortedInter, this, sortAsc]

/-- Running sums of a list of weights starting from init, as built by
itertools.accumulate inside random.choices. -/
def cumSums (init : Rat) : List Rat → List Rat
  | [] => []
  | w :: ws => (init + w) :: cumSums (init + w) ws

theorem cumSums_length (init : Rat) (ws : List Rat) :
    (cumSums init ws).length = ws.length := by
  induction ws generalizing init with
  | nil => rfl
  | cons w ws ih => simp [cumSums, ih]

/-- numpy median of a sorted nonempty list: middle element, or mean of the two
middle elements for even length. -/
def npMedian (l : List Nat) : Rat :=
  let n := l.length
  if n % 2 = 1 then (l.getD (n / 2) 0 : Nat)
  else (((l.getD (n / 2 - 1) 0 : Nat) : Rat) + ((l.getD (n / 2) 0 : Nat) : Rat)) / 2

/-- Lines 151-158 of scheduler.py: weights biased toward the median, normalized
into probabilities, then random.choices with k=1, which bisects the cumulative
weights at u * total with the bisect upper bound n - 1. -/
def pickWeek (pop : List Nat) (u : Rat) : Nat :=
  let median := npMedian pop
  let weights := pop.map (fun n => 1 / (1 + |(n : Rat) - median|))
  let total := weights.foldl (· + ·) 0
  let probs := weights.map (· / total)
  let cum := cumSums 0 probs
  let x := u * (probs.foldl (· + ·) 0)
  let idx := (cum.take (pop.length - 1)).countP (fun c => decide (c ≤ x))
  pop.getD idx 0

theorem pickWeek_mem (pop : List Nat) (u : Rat) (h : pop ≠ []) : pickWeek pop u ∈ pop := by
  unfold pickWeek
  have hlen : 1 ≤ pop.length := by
    cases pop with
    | nil => exact absurd rfl h
    | cons _ _ => simp
  set idx := ((cumSums 0 ((pop.map (fun n => 1 / (1 + |(n : Rat) - npMedian pop|))).map
    (· / (pop.map (fun n => 1 / (1 + |(n : Rat) - npMedian pop|))).foldl (· + ·) 0))).take
    (pop.length - 1)).countP (fun c => decide (c ≤ u * ((pop.map (fun n => 1 / (1 + |(n : Rat) - npMedian pop|))).map
    (· / (pop.map (fun n => 1 / (1 + |(n : Rat) - npMedian pop|))).foldl (· + ·) 0)).foldl (· + ·) 0)) with hidx
  have hbound : idx < pop.length := by
    have h1 : idx ≤ ((cumSums 0 _).take (pop.length - 1)).length := List.countP_le_length _
    have h2 : (List.take (pop.length - 1) (cumSums 0 ((pop.map (fun n => 1 / (1 + |(n : Rat) - npMedian pop|))).map
        (· / (pop.map (fun n => 1 / (1 + |(n : Rat) - npMedian pop|))).foldl (· + ·) 0)))).length ≤ pop.length - 1 := by
      exact List.length_take_le _ _
    omega
  rw [List.getD_eq_getElem pop 0 hbound]
  exact List.getElem_mem _

/-- Python list.remove(x) with x present: drop the first occurrence. -/
def eraseFirst {α : Type} [DecidableEq α] (x : α) : List α → List α
  | [] => []
  | y :: ys => if y = x then ys else y :: eraseFirst x ys

theorem eraseFirst_perm {α : Type} [DecidableEq α] {x : α} {l : List α} (h : x ∈ l) :
    List.Perm l (x :: eraseFirst x l) := by
  induction l with
  | nil => simp at h
  | cons y ys ih =>
    by_cases hy : y = x
    · subst hy
      simp [eraseFirst]
    · have hx : x ∈ ys := (List.mem_cons.1 h).resolve_left (fun hk => hy hk.symm)
      simp only [eraseFirst, if_neg hy]
      exact (List.Perm.cons y (ih hx)).trans (List.Perm.swap x y _)

theorem length_eraseFirst_of_mem {α : Type} [DecidableEq α] {x : α} {l : List α}
    (h : x ∈ l) : (eraseFirst x l).length + 1 = l.length := by
  have := (eraseFirst_perm h).length_eq
  simpa using this.symm

theorem mem_of_mem_eraseFirst {α : Type} [DecidableEq α] {x y : α} {l : List α}
    (h : y ∈ eraseFirst x l) : y ∈ l := by
  induction l with
  | nil => simp [eraseFirst] at h
  | cons z zs ih =>
    by_cases hz : z = x
    · subst hz
      simp only [eraseFirst, if_pos rfl] at h
      exact List.mem_cons_of_mem _ h
    · simp only [eraseFirst, if_neg hz] at h
      rcases List.mem_cons.1 h with h1 | h2
      · exact h1 ▸ List.mem_cons_self _ _
      · exact List.mem_cons_of_mem _ (ih h2)

theorem eraseFirst_of_not_mem {α : Type} [DecidableEq α] {x : α} {l : List α}
    (h : x ∉ l) : eraseFirst x l = l := by
  induction l with
  | nil => rfl
  | cons y ys ih =>
    simp only [List.mem_cons, not_or] at h
    have hyx : y ≠ x := fun hy => h.1 hy.symm
    simp only [eraseFirst, if_neg hyx]
    rw [ih h.2]

/-- Extract the least element under le, mirroring a heapq pop; ties cannot
arise in this development since every queue element carries a distinct key. -/
def popMinBy {α : Type} [DecidableEq α] (le : α → α → Bool) (l : List α) :
    Option (α × List α) :=
  match l with
  | [] => none
  | x :: xs =>
    let m := xs.foldl (fun a b => if le a b then a else b) x
    some (m, eraseFirst m (x :: xs))

theorem popMinBy_nil {α : Type} [DecidableEq α] (le : α → α → Bool) :
    popMinBy le ([] : List α) = none := rfl

theorem foldl_min_mem {α : Type} (le : α → α → Bool) (x : α) (xs : List α) :
    xs.foldl (fun a b => if le a b then a else b) x ∈ x :: xs := by
  induction xs generalizing x with
  | nil => simp
  | cons y ys ih =>
    simp only [List.foldl_cons]
    by_cases h : le x y
    · simp only [if_pos h]
      rcases List.mem_cons.1 (ih x) with hx | hmem
      · exact List.mem_cons.2 (Or.inl hx)
      · exact List.mem_cons.2 (Or.inr (List.mem_cons.2 (Or.inr hmem)))
    · simp only [if_neg h]
      rcases List.mem_cons.1 (ih y) with hy | hmem
      · exact List.mem_cons.2 (Or.inr (List.mem_cons.2 (Or.inl hy)))
      · exact List.mem_cons.2 (Or.inr (List.mem_cons.2 (Or.inr hmem)))

theorem popMinBy_some {α : Type} [DecidableEq α] (le : α → α → Bool) (l : List α)
    (e : α) (rest : List α) (h : popMinBy le l = some (e, rest)) :
    e ∈ l ∧ rest = eraseFirst e l := by
  cases l with
  | nil => simp [popMinBy] at h
  | cons x xs =>
    simp only [popMinBy, Option.some.injEq, Prod.mk.injEq] at h
    obtain ⟨he, hr⟩ := h
    subst he
    subst hr
    refine ⟨?_, rfl⟩
    exact foldl_min_mem le x xs

theorem popMinBy_perm {α : Type} [DecidableEq α] (le : α → α → Bool) (l : List α)
    (e : α) (rest : List α) (h : popMinBy le l = some (e, rest)) : List.Perm l (e :: rest) := by
  obtain ⟨hm, hr⟩ := popMinBy_some le l e rest h
  rw [hr]
  exact eraseFirst_perm hm

theorem popMinBy_length {α : Type} [DecidableEq α] (le : α → α → Bool) (l : List α)
    (e : α) (rest : List α) (h : popMinBy le l = some (e, rest)) :
    rest.length + 1 = l.length := by
  have := (popMinBy_perm le l e rest h).length_eq
  simpa using this.symm

theorem popMinBy_isSome {α : Type} [DecidableEq α] (le : α → α → Bool) (l : List α)
    (h : l ≠ []) : (popMinBy le l).isSome := by
  cases l with
  | nil => exact absurd rfl h
  | cons x xs => simp [popMinBy]

/-! ## The find_schedule embedding (scheduler.py lines 86-196) -/

/-- Per-team record of the current_schedules input: a signed home/away balance
and the list of free weeks. -/
structure TeamInfo where
  balance : Int
  free_weeks : List Nat
deriving Repr, DecidableEq

abbrev Requests := Dict Team (Dict Team (Option Bool))

abbrev Avail := Dict Team TeamInfo

abbrev Schedule := Dict Team (Dict Team Nat)

abbrev FSEntry := Int × Rat × Matchup

def dlookup2 {β : Type} (d : Dict Team (Dict Team β)) (a b : Team) : Option β :=
  match dlookup d a with
  | none => none
  | some inner => dlookup inner b

/-- Write schedule[a][b] = w, creating the inner dict when absent, as lines
165-170 of scheduler.py do. -/
def dset2 (s : Schedule) (a b : Team) (w : Nat) : Schedule :=
  match dlookup s a with
  | none => dset s a [(b, w)]
  | some inner => dset s a (dset inner b w)

/-- Python del requests[a][b]: KeyError (modelled as none) when either key is
missing. -/
def ddel2 (r : Requests) (a b : Team) : Option Requests :=
  match dlookup r a with
  | none => none
  | some inner =>
    if (dlookup inner b).isSome then some (dset r a (ddel inner b)) else none

/-- Lexicographic order on the (priority, seed, matchup) heap entries, matching
Python tuple comparison. -/
def fsEntryLe (a b : FSEntry) : Bool :=
  decide (a.1 < b.1) || (decide (a.1 = b.1) && (decide (a.2.1 < b.2.1) ||
    (decide (a.2.1 = b.2.1) && (decide (a.2.2.1 < b.2.2.1) ||
      (decide (a.2.2.1 = b.2.2.1) && decide (a.2.2.2 ≤ b.2.2.2))))))

/-- State of find_schedule after the set-up pass over the request graph. -/
structure FSState where
  requests : Requests
  cfw : Dict Matchup (List Nat)
  prio : Dict Matchup Int
  seeds : Dict Matchup Rat
  pq : List FSEntry
  schedule : Schedule
  errors : Dict Matchup String
  seedVar : Option Rat
  rng : RNG

/-- Lines 102-120: one (team, opp) pair of the enumeration that fills the
priority queue.  An opponent absent from current_schedules is skipped (the
CPU-opponent hotfix); a team absent from current_schedules or from the request
graph raises KeyError, modelled as none. -/
def phase1Pair (requests : Requests) (info : Avail) (team : Team) (st : FSState)
    (opp : Team) : Option FSState :=
  if (dlookup info opp).isSome = false then some st
  else
    let m := matchupOf team opp
    -- the seen set of line 97 always holds exactly the keys of priority_dict,
    -- so membership in seen is tested through that dict
    if (dlookup st.prio m).isSome then some st
    else
      match dlookup info team, dlookup info opp, dlookup requests team, dlookup requests opp with
      | some ti, some oi, some rt, some ro =>
        let inter := sortedInter ti.free_weeks oi.free_weeks
        let priority : Int := (inter.length : Int) - (max rt.length ro.length : Nat)
        let (sv, u, g) :=
          match st.seedVar with
          | some _ => let p := st.rng.next; (some p.1, p.1, p.2)
          | none => (some 0, (0 : Rat), st.rng)
        some { st with
          cfw := dset st.cfw m inter
          prio := dset st.prio m priority
          seeds := dset st.seeds m u
          pq := (priority, u, m) :: st.pq
          seedVar := sv
          rng := g }
      | _, _, _, _ => none

def phase1Opps (requests : Requests) (info : Avail) (team : Team) :
    List (Team × Option Bool) → FSState → Option FSState
  | [], st => some st
  | (opp, _) :: rest, st =>
    match phase1Pair requests info team st opp with
    | none => none
    | some st' => phase1Opps requests info team rest st'

def phase1Teams (requests : Requests) (info : Avail) :
    List (Team × Dict Team (Option Bool)) → FSState → Option FSState
  | [], st => some st
  | (team, opps) :: rest, st =>
    match phase1Opps requests info team opps st with
    | none => none
    | some st' => phase1Teams requests info rest st'

/-- Lines 134-146: count, for each common week of the popped matchup, how many
other pending matchups of either team share that week. -/
def bumpCounts (cnts : Dict Nat Nat) (other : List Nat) : Dict Nat Nat :=
  cnts.map (fun p => (p.1, if p.1 ∈ other then p.2 + 1 else p.2))

def gatherOpps (info : Avail) (cfw : Dict Matchup (List Nat)) (m : Matchup) (t : Team) :
    List (Team × Option Bool) → Dict Nat Nat → Option (Dict Nat Nat)
  | [], cnts => some cnts
  | (opp, _) :: rest, cnts =>
    if (dlookup info opp).isSome = false then gatherOpps info cfw m t rest cnts
    else
      let om := matchupOf t opp
      if om = m then gatherOpps info cfw m t rest cnts
      else
        match dlookup cfw om with
        | none => none
        | some ws => gatherOpps info cfw m t rest (bumpCounts cnts ws)

def gatherCounts (info : Avail) (cfw : Dict Matchup (List Nat)) (requests : Requests)
    (m : Matchup) (cnts : Dict Nat Nat) : Option (Dict Nat Nat) :=
  match dlookup requests m.1 with
  | none => none
  | some opps1 =>
    match gatherOpps info cfw m m.1 opps1 cnts with
    | none => none
    | some cnts1 =>
      match dlookup requests m.2 with
      | none => none
      | some opps2 => gatherOpps info cfw m m.2 opps2 cnts1

/-- Line 147: the weeks whose contention count attains the minimum. -/
def leastKeys (cnts : Dict Nat Nat) : List Nat :=
  match cnts.map Prod.snd with
  | [] => []
  | v :: vs =>
    let mn := vs.foldl min v
    (cnts.filter (fun p => p.2 = mn)).map Prod.fst

/-- Lines 176-194: after committing week w for matchup m, remove w from the
common weeks of every other pending matchup of team t and refresh that
matchup's priority-queue entry.  list.remove on a value not in the backing
heap list would raise ValueError, modelled as none. -/
def propagatePair (info : Avail) (m : Matchup) (w : Nat) (t : Team) (st : FSState)
    (opp : Team) : Option FSState :=
  if (dlookup info opp).isSome = false then some st
  else
    let om := matchupOf t opp
    if om = m then some st
    else
      match dlookup st.cfw om with
      | none => none
      | some ws =>
        if w ∈ ws then
          let ws' := eraseFirst w ws
          match dlookup st.requests t, dlookup st.requests opp with
          | some rt, some ro =>
            let newPriority : Int := (ws'.length : Int) - (max rt.length ro.length : Nat)
            let (newSeed, g) :=
              match st.seedVar with
              | some _ => st.rng.next
              | none => ((0 : Rat), st.rng)
            match dlookup st.prio om, dlookup st.seeds om with
            | some oldP, some oldS =>
              if (oldP, oldS, om) ∈ st.pq then
                some { st with
                  cfw := dset st.cfw om ws'
                  prio := dset st.prio om newPriority
                  seeds := dset st.seeds om newSeed
                  pq := (newPriority, newSeed, om) :: eraseFirst (oldP, oldS, om) st.pq
                  rng := g }
              else none
            | _, _ => none
          | _, _ => none
        else some st

def propagateOpps (info : Avail) (m : Matchup) (w : Nat) (t : Team) :
    List (Team × Option Bool) → FSState → Option FSState
  | [], st => some st
  | (opp, _) :: rest, st =>
    match propagatePair info m w t st opp with
    | none => none
    | some st' => propagateOpps info m w t rest st'

def propagateTeam (info : Avail) (m : Matchup) (w : Nat) (t : Team) (st : FSState) :
    Option FSState :=
  match dlookup st.requests t with
  | none => none
  | some opps => propagateOpps info m w t opps st

/-- One pass of the while-loop of lines 130-194, followed by the rest of the
loop under the remaining fuel.  Fuel equals the queue length on entry; a run
that would outlive its fuel answers none, which is shown unreachable. -/
def fsLoop (info : Avail) : Nat → FSState → Option (Schedule × Dict Matchup String)
  | 0, st => if st.pq = [] then some (st.schedule, st.errors) else none
  | fuel + 1, st =>
    match popMinBy fsEntryLe st.pq with
    | none => some (st.schedule, st.errors)
    | some ((_, _, m), pqRest) =>
      let st0 := { st with pq := pqRest }
      match dlookup st0.cfw m with
      | none => none
      | some common =>
        match gatherCounts info st0.cfw st0.requests m (common.map (fun w => (w, 0))) with
        | none => none
        | some cnts =>
          let least := leastKeys cnts
          if least = [] then
            -- random.choices raises IndexError on the empty population, caught
            -- at line 159 and turned into an error entry
            fsLoop info fuel
              { st0 with errors := dset st0.errors m "No overlapping free weeks" }
          else
            let sorted := sortAsc least
            let (u, g) := st0.rng.next
            let w := pickWeek sorted u
            let sched := dset2 (dset2 st0.schedule m.1 m.2 w) m.2 m.1 w
            match ddel2 st0.requests m.1 m.2 with
            | none => none
            | some req1 =>
              match ddel2 req1 m.2 m.1 with
              | none => none
              | some req2 =>
                let st1 := { st0 with requests := req2, schedule := sched, rng := g }
                match propagateTeam info m w m.1 st1 with
                | none => none
                | some st2 =>
                  match propagateTeam info m w m.2 st2 with
                  | none => none
                  | some st3 => fsLoop info fuel st3

/-- Lines 86-196 of scheduler.py.  The RNG parameter is the state of the
global random module when the call starts; note the function never reseeds
it from the seed argument, whose value is only ever tested against None. -/
def find_schedule (requests : Requests) (info : Avail) (seedArg : Option Int)
    (g : RNG) : Option (Schedule × Dict Matchup String) :=
  let init : FSState :=
    { requests := requests, cfw := [], prio := [], seeds := [], pq := [],
      schedule := [], errors := [], seedVar := seedArg.map (fun s => (s : Rat)),
      rng := g }
  match phase1Teams requests info requests init with
  | none => none
  | some st => fsLoop info st.pq.length st

/-! ## The set_game_locations embedding (scheduler.py lines 199-381) -/

/-- Python exceptions that set_game_locations can raise, plus the fuel marker
of the embedding for the non-structural outer loop. -/
inductive PyErr where
  | keyError
  | valueError
  | zeroDivisionError
  | assertionError
  | fuelOut
deriving Repr, DecidableEq

/-- Per-team record after the pre-processing of lines 221-223 collapses the
free-week list to its length. -/
structure SInfo where
  balance : Int
  free : Int
deriving Repr, DecidableEq

/-- Filler-game counts; fractional halves signal a slot assignable either way. -/
structure CpuG where
  home : Rat
  away : Rat
deriving Repr, DecidableEq

abbrev GLEntry := Rat × Rat × Team

abbrev OppEntry := Int × Int × Rat × Team

def glEntryLe (a b : GLEntry) : Bool :=
  decide (a.1 < b.1) || (decide (a.1 = b.1) && (decide (a.2.1 < b.2.1) ||
    (decide (a.2.1 = b.2.1) && decide (a.2.2 ≤ b.2.2))))

def oppEntryLe (a b : OppEntry) : Bool :=
  decide (a.1 < b.1) || (decide (a.1 = b.1) && (decide (a.2.1 < b.2.1) ||
    (decide (a.2.1 = b.2.1) && (decide (a.2.2.1 < b.2.2.1) ||
      (decide (a.2.2.1 = b.2.2.1) && decide (a.2.2.2 ≤ b.2.2.2))))))

structure GLState where
  info : Dict Team SInfo
  settings : Dict Team (Dict Team Bool)
  cpu : Dict Team CpuG
  seeds : Dict Team Rat
  pq : List GLEntry
  bnd : List Team
  rng : RNG

/-- random.random() if seed else 0: the seed argument is tested for Python
truthiness, so 0 and None both disable the random tiebreakers. -/
def glDraw (truthy : Bool) (g : RNG) : Rat × RNG :=
  if truthy then g.next else (0, g)

/-- Lines 231-236: seed each team, enqueue the unbalanced ones by
-(balance + number of scheduled games), and start empty settings and
filler-game records. -/
def glInit (truthy : Bool) : List (Team × Dict Team Nat) → GLState → Except PyErr GLState
  | [], st => .ok st
  | (team, games) :: rest, st =>
    let (u, g) := glDraw truthy st.rng
    match dlookup st.info team with
    | none => .error .keyError
    | some si =>
      let pr : Rat := ((-(si.balance + (games.length : Int)) : Int) : Rat)
      let pq' := if si.balance ≠ 0 then (pr, u, team) :: st.pq else st.pq
      glInit truthy rest
        { st with
          seeds := dset st.seeds team u
          pq := pq'
          settings := dset st.settings team []
          cpu := dset st.cpu team ⟨0, 0⟩
          rng := g }

/-- Count of still-undecided opponents: [opp for opp in schedule[team] if opp
not in settings[team]]. -/
def undecided (games : Dict Team Nat) (stg : Dict Team Bool) : List Team :=
  (games.filter (fun p => (dlookup stg p.1).isSome = false)).map Prod.fst

/-- Lines 280-300: build the opponent priority queue for the popped team. -/
def buildOppPq (prefs : Requests) (respect : Bool) (truthy : Bool) (team : Team)
    (adjustment : Int) (balance : Int) :
    List (Team × Nat) → GLState → List OppEntry → Except PyErr (List OppEntry × GLState)
  | [], st, acc => .ok (acc, st)
  | (opp, _) :: rest, st, acc =>
    match dlookup st.settings team with
    | none => .error .keyError
    | some stgTeam =>
      if (dlookup stgTeam opp).isSome then
        buildOppPq prefs respect truthy team adjustment balance rest st acc
      else
        match dlookup2 prefs team opp with
        | none => .error .keyError
        | some pref =>
          let rawFlag : Int :=
            match pref with
            | some true => if adjustment < 0 then -1 else 1
            | some false => if adjustment > 0 then -1 else 1
            | none => 0
          let flag := if respect = false then 0 else rawFlag
          match dlookup st.info opp with
          | none => .error .keyError
          | some oi =>
            let (u, g) := glDraw truthy st.rng
            buildOppPq prefs respect truthy team adjustment balance rest
              { st with rng := g } ((flag, |oi.balance - balance|, u, opp) :: acc)

/-- Lines 304-328: the body of the inner loop for one popped opponent,
returning the team's new running balance and the new state. -/
def glInnerStep (schedule : Schedule) (truthy : Bool) (team : Team) (setting : Bool)
    (adjustment : Int) (opp : Team) (balance : Int) (st : GLState) :
    Except PyErr (Int × GLState) :=
  match dlookup st.settings team with
  | none => .error .keyError
  | some stgTeam =>
    let st := { st with settings := dset st.settings team (dset stgTeam opp setting) }
    let balance := balance + adjustment
    -- lines 308-311: the priority under which opp is currently enqueued
    match dlookup schedule opp, dlookup st.settings opp, dlookup st.info opp,
        dlookup st.seeds opp with
    | some gamesOpp, some stgOpp, some oi, some oldSeed =>
      match (if opp ∈ st.bnd then
          (match (undecided gamesOpp stgOpp).length with
           | 0 => Except.error PyErr.zeroDivisionError
           | n + 1 => Except.ok ((1 : Rat) / (n + 1 : Nat)))
        else Except.ok ((-(oi.balance + ((gamesOpp.length : Int) - stgOpp.length)) : Int) : Rat)) with
      | .error e => .error e
      | .ok oldPriority =>
        let st := { st with
          settings := dset st.settings opp (dset stgOpp team (!setting))
          info := dset st.info opp { oi with balance := oi.balance - adjustment } }
        let newBal := oi.balance - adjustment
        match dlookup st.settings opp with
        | none => .error .keyError
        | some stgOpp' =>
          let oppUnsched := undecided gamesOpp stgOpp'
          let newPriority : Rat :=
            if opp ∈ st.bnd ∧ 0 < oppUnsched.length ∧ newBal = 0 then
              (1 : Rat) / (oppUnsched.length : Nat)
            else ((-(newBal + ((gamesOpp.length : Int) - stgOpp'.length)) : Int) : Rat)
          match (if |newBal| ≠ 1 ∨ opp ∈ st.bnd then
              (if (oldPriority, oldSeed, opp) ∈ st.pq then
                Except.ok { st with pq := eraseFirst (oldPriority, oldSeed, opp) st.pq,
                                    bnd := eraseFirst opp st.bnd }
              else Except.error PyErr.valueError)
            else Except.ok st) with
          | .error e => .error e
          | .ok st =>
            let st :=
              if newBal ≠ 0 ∨ 0 < oppUnsched.length then
                let (u, g) := glDraw truthy st.rng
                { st with seeds := dset st.seeds opp u,
                          pq := (newPriority, u, opp) :: st.pq, rng := g }
              else st
            .ok (balance, st)
    | _, _, _, _ => .error .keyError

/-- Lines 303-328: the inner loop assigning locations against opponents until
the team balances (or, for a balanced-not-done team, until no opponent is
left). -/
def glInner (schedule : Schedule) (truthy : Bool) (team : Team) (setting : Bool)
    (adjustment : Int) : List OppEntry → Int → GLState → Except PyErr (Int × GLState)
  | oppq, balance, st =>
    if (if team ∈ st.bnd then (oppq.length : Int) else balance) = 0 then .ok (balance, st)
    else
      match hpop : popMinBy oppEntryLe oppq with
      | none => .ok (balance, st)
      | some ((_, _, _, opp), rest) =>
        match glInnerStep schedule truthy team setting adjustment opp balance st with
        | .error e => .error e
        | .ok (balance', st') =>
          glInner schedule truthy team setting adjustment rest balance' st'
termination_by oppq _ _ => oppq.length
decreasing_by
  simp_wf
  have := popMinBy_length oppEntryLe oppq _ _ hpop
  omega

/-- Lines 254-264: try to balance the popped team with filler (CPU) games,
consuming free weeks beyond the 2 reserved byes. -/
def glAbsorb (team : Team) (si : SInfo) (st : GLState) : Except PyErr GLState :=
  let numCpu : Int := si.free - 2
  let adjustment : Int := if si.balance < 0 then 1 else -1
  if 0 < numCpu then
    let setting := adjustment = 1
    let num := min numCpu |si.balance|
    match dlookup st.cpu team with
    | none => .error .keyError
    | some cg =>
      .ok { st with
        cpu := dset st.cpu team
          (if setting then { cg with home := cg.home + (num : Int) }
           else { cg with away := cg.away + (num : Int) })
        info := dset st.info team
          { si with balance := si.balance + adjustment * num, free := si.free - num } }
  else .ok st


/-- Lines 249-341: processing of one popped team, already removed from the
queue: the CPU-game absorption, the balanced-not-done bookkeeping, the inner
loop over opponents, the write-back of the balance and the low-priority
re-enqueue. -/
def glLoopStep (schedule : Schedule) (prefs : Requests) (respect truthy : Bool)
    (team : Team) (st : GLState) : Except PyErr GLState :=
  match dlookup st.info team, dlookup schedule team with
  | some si, some games =>
    let adjustment : Int := if si.balance < 0 then 1 else -1
    match glAbsorb team si st with
    | .error e => .error e
    | .ok st =>
    match dlookup st.info team, dlookup st.settings team with
    | some si', some stgTeam =>
      let balance : Int := si'.balance
      if balance = 0 ∧ team ∉ st.bnd then
        let nUnsched := (undecided games stgTeam).length
        if 0 < nUnsched then
          let (u, g) := glDraw truthy st.rng
          .ok { st with bnd := team :: st.bnd, seeds := dset st.seeds team u,
                        pq := ((1 : Rat) / (nUnsched : Nat), u, team) :: st.pq, rng := g }
        else .ok st
      else
        let setting := adjustment = 1
        match buildOppPq prefs respect truthy team adjustment balance games st [] with
        | .error e => .error e
        | .ok (oppq, st) =>
          match glInner schedule truthy team setting adjustment oppq balance st with
          | .error e => .error e
          | .ok (balance', st) =>
            match dlookup st.info team, dlookup st.settings team with
            | some si'', some stgTeam' =>
              let st := { st with info := dset st.info team { si'' with balance := balance' } }
              let unschedUsers := (undecided games stgTeam').length
              if balance' = 0 ∧ 0 < unschedUsers then
                let (u, g) := glDraw truthy st.rng
                .ok { st with
                  seeds := dset st.seeds team u
                  pq := ((1 : Rat) / (unschedUsers : Nat), u, team) :: st.pq
                  bnd := if team ∈ st.bnd then st.bnd else team :: st.bnd
                  rng := g }
              else .ok st
            | _, _ => .error .keyError
    | _, _ => .error .keyError
  | _, _ => .error .keyError

/-- The outer while-loop of lines 249-341 under fuel. -/
def glLoop (schedule : Schedule) (prefs : Requests) (respect truthy : Bool) :
    Nat → GLState → Except PyErr GLState
  | 0, st => if st.pq = [] then .ok st else .error .fuelOut
  | fuel + 1, st =>
    match popMinBy glEntryLe st.pq with
    | none => .ok st
    | some ((_, _, team), pqRest) =>
      match glLoopStep schedule prefs respect truthy team { st with pq := pqRest } with
      | .error e => .error e
      | .ok st' => glLoop schedule prefs respect truthy fuel st'

/-- Lines 345-379: the final filler pass for one team. -/
def glFinal1 (team : Team) (st : GLState) (errors : Dict Team Rat) :
    Except PyErr (GLState × Dict Team Rat) :=
  match dlookup st.info team, dlookup st.cpu team with
  | some si, some cg =>
    let numNeeded : Int := si.free - 2
    if numNeeded < 0 then .error .assertionError
    else
      if si.balance = 0 then
        let cg' : CpuG := ⟨cg.home + (numNeeded : Int) / 2, cg.away + (numNeeded : Int) / 2⟩
        let balance : Rat := if cg'.home.den ≠ 1 then (if (0 : Rat) ≤ 0 then 1 else -1) else 0
        let errors' := if balance ≠ 0 then dset errors team balance else errors
        .ok ({ st with cpu := dset st.cpu team cg' }, errors')
      else
        let numNeeded1 : Rat := (numNeeded : Int) + (cg.home + cg.away)
        let balance1 : Rat := (si.balance : Int) - cg.home + cg.away
        let adjustment : Rat := if balance1 < 0 then 1 else -1
        let num : Rat := min |balance1| numNeeded1
        let cg1 : CpuG := if adjustment = 1 then ⟨num, 0⟩ else ⟨0, num⟩
        let balance2 := balance1 + adjustment * num
        let numNeeded2 := numNeeded1 - num
        let cg2 : CpuG :=
          if balance2 = 0 ∧ 0 < numNeeded2 then
            ⟨cg1.home + numNeeded2 / 2, cg1.away + numNeeded2 / 2⟩
          else cg1
        let balance3 : Rat :=
          if cg2.home.den ≠ 1 then (if 0 ≤ balance2 then balance2 + 1 else balance2 - 1)
          else balance2
        let errors' := if balance3 ≠ 0 then dset errors team balance3 else errors
        .ok ({ st with cpu := dset st.cpu team cg2 }, errors')
  | _, _ => .error .keyError

def glFinal : List (Team × Dict Team Nat) → GLState → Dict Team Rat →
    Except PyErr (GLState × Dict Team Rat)
  | [], st, errors => .ok (st, errors)
  | (team, _) :: rest, st, errors =>
    match glFinal1 team st errors with
    | .error e => .error e
    | .ok (st', errors') => glFinal rest st' errors'

/-- Lines 199-381 of scheduler.py.  The RNG parameter is the global random
state after the optional random.seed(seed) of line 220, so a truthy seed
makes the draws a function of the seed exactly as in the source.  The fuel
bounds the non-structural outer loop; exhaustion is reported as fuelOut. -/
def set_game_locations (schedule : Schedule) (info : Avail) (prefs : Requests)
    (respect : Bool) (seedArg : Option Int) (g : RNG) (fuel : Nat) :
    Except PyErr (Dict Team (Dict Team Bool) × Dict Team CpuG × Dict Team Rat) :=
  let truthy := match seedArg with | some s => s ≠ 0 | none => false
  let info0 : Dict Team SInfo :=
    info.map (fun p => (p.1, ⟨p.2.balance, (p.2.free_weeks.length : Int)⟩))
  let init : GLState :=
    { info := info0, settings := [], cpu := [], seeds := [], pq := [], bnd := [], rng := g }
  match glInit truthy schedule init with
  | .error e => .error e
  | .ok st =>
    match glLoop schedule prefs respect truthy fuel st with
    | .error e => .error e
    | .ok st' =>
      match glFinal schedule st' [] with
      | .error e => .error e
      | .ok (st'', errors) => .ok (st''.settings, st''.cpu, errors)

/-! ## Concrete runs deciding claims C6, C7, C8, C9 -/

/-- A fixed global random state whose draws are all zero. -/
def zeroRng : RNG := ⟨fun _ => 0, 0⟩

/-- A global random state whose second draw is one half. -/
def halfRng : RNG := ⟨fun n => if n = 1 then 1 / 2 else 0, 0⟩

/-- C7: the claim asks find_schedule to fail fast with an unknown-team signal
when the Request Graph references a team absent from Availability.  The code
instead silently skips such opponents (the CPU-opponent hotfix of lines
104-107): with team 0 requesting the unknown team 1, the run succeeds and
returns an empty Schedule and an empty Error Report, with no signal at all. -/
theorem unknown_team_silently_skipped :
    find_schedule [(0, [(1, some true)])] [(0, ⟨0, [1, 2]⟩)] none zeroRng
      = some ([], []) := by
  norm_num [find_schedule, phase1Teams, phase1Opps, phase1Pair, fsLoop, dlookup]

/-- C8: find_schedule never reseeds the random module from its seed argument
(the argument value is only compared against None), so two calls with the
identical Request Graph, identical Availability and identical seed 7, made
from different states of the global random stream, return different
Schedules: week 1 in the first run and week 2 in the second. -/
theorem seed_does_not_determine_schedule :
    find_schedule [(0, [(1, none)]), (1, [(0, none)])]
        [(0, ⟨0, [1, 2, 3]⟩), (1, ⟨0, [1, 2, 3]⟩)] (some 7) zeroRng
      = some ([(0, [(1, 1)]), (1, [(0, 1)])], [])
    ∧ find_schedule [(0, [(1, none)]), (1, [(0, none)])]
        [(0, ⟨0, [1, 2, 3]⟩), (1, ⟨0, [1, 2, 3]⟩)] (some 7) halfRng
      = some ([(0, [(1, 2)]), (1, [(0, 2)])], []) := by
  constructor <;>
    norm_num [find_schedule, phase1Teams, phase1Opps, phase1Pair, fsLoop, popMinBy,
      gatherCounts, gatherOpps, bumpCounts, leastKeys, propagateTeam, propagateOpps,
      propagatePair, pickWeek, npMedian, cumSums, sortedInter, sortAsc, insertAsc,
      dset2, ddel2, dlookup, dset, ddel, dkeys, RNG.next, fsEntryLe, matchupOf,
      zeroRng, halfRng, eraseFirst] <;> decide

/-- C6: the claim asks every game of the input Schedule to receive a location.
Line 233 of the source only enqueues teams with nonzero balance, so the game
between teams 0 and 1, both entering with balance 0, is never assigned: the
run ends successfully with empty location dictionaries for both teams, the
very situation the sanity check of scheduler.py lines 519-522 flags as an
error. -/
theorem location_completeness_failing_input :
    set_game_locations [(0, [(1, 5)]), (1, [(0, 5)])]
        [(0, ⟨0, [10, 11]⟩), (1, ⟨0, [12, 13]⟩)] [] false none zeroRng 0
      = .ok ([(0, []), (1, [])], [(0, ⟨0, 0⟩), (1, ⟨0, 0⟩)], [])
    ∧ dlookup2 ([(0, []), (1, [])] : Dict Team (Dict Team Bool)) 0 1 = none := by
  constructor
  · norm_num [set_game_locations, glInit, glLoop, glLoopStep, glAbsorb, glFinal, glFinal1,
      glDraw, popMinBy, undecided, eraseFirst, dlookup, dset, zeroRng]
  · norm_num [dlookup2, dlookup]

/-- C9, counterexample: a team entering set_game_locations with balance +2,
two unused filler slots (four free weeks less the two reserved byes) and no
real games receives Filler Games {home: 0, away: 2}, not the {home: 2,
away: 0} the claim states: in the code a positive balance is a surplus of
home games, absorbed with away filler games. -/
theorem filler_scenario_counterexample :
    set_game_locations [(0, [])] [(0, ⟨2, [0, 1, 2, 3]⟩)] [] false none zeroRng 1
      = .ok ([(0, [])], [(0, ⟨0, 2⟩)], [])
    ∧ ((⟨0, 2⟩ : CpuG) ≠ ⟨2, 0⟩) := by
  constructor
  · norm_num [set_game_locations, glInit, glLoop, glLoopStep, glAbsorb, glFinal, glFinal1,
      glDraw, popMinBy, undecided, eraseFirst, dlookup, dset, zeroRng]
  · intro h
    exact absurd (congrArg CpuG.home h) (by norm_num)

theorem glLoop_empty_pq (schedule : Schedule) (prefs : Requests) (respect truthy : Bool)
    (fuel : Nat) (st : GLState) (h : st.pq = []) :
    glLoop schedule prefs respect truthy fuel st = .ok st := by
  cases fuel with
  | zero => simp [glLoop, h]
  | succ n => simp [glLoop, h, popMinBy]

/-- C9, amended: for any team entering set_game_locations with balance +2,
two unused filler slots and no real games left undecided, the returned Filler
Games entry is {home: 0, away: 2} (the code's convention is the reverse of
the spec's: positive balance means a surplus of home games) and the team has
no entry in the final Error Report. -/
theorem filler_scenario_amended (t : Team) (fw : List Nat) (prefs : Requests)
    (respect : Bool) (g : RNG) (fuel : Nat) (hfw : fw.length = 4) (hfuel : 1 ≤ fuel) :
    set_game_locations [(t, [])] [(t, ⟨2, fw⟩)] prefs respect none g fuel
      = .ok ([(t, [])], [(t, ⟨0, 2⟩)], []) := by
  obtain ⟨n, rfl⟩ : ∃ n, fuel = n + 1 := ⟨fuel - 1, by omega⟩
  simp only [set_game_locations, List.map_cons, List.map_nil, hfw]
  have h1 : glInit false [(t, [])]
      { info := [(t, ⟨2, ((4 : Nat) : Int)⟩)], settings := [], cpu := [], seeds := [],
        pq := [], bnd := [], rng := g }
      = .ok { info := [(t, ⟨2, ((4 : Nat) : Int)⟩)], settings := [(t, [])],
              cpu := [(t, ⟨0, 0⟩)], seeds := [(t, 0)],
              pq := [(-2, 0, t)], bnd := [], rng := g } := by
    norm_num [glInit, glDraw, dlookup, dset]
  rw [h1]
  have h2 : glLoop [(t, [])] prefs respect false (n + 1)
      { info := [(t, ⟨2, ((4 : Nat) : Int)⟩)], settings := [(t, [])],
        cpu := [(t, ⟨0, 0⟩)], seeds := [(t, 0)],
        pq := [(-2, 0, t)], bnd := [], rng := g }
      = .ok { info := [(t, ⟨0, (2 : Int)⟩)], settings := [(t, [])],
              cpu := [(t, ⟨0, 2⟩)], seeds := [(t, 0)], pq := [], bnd := [], rng := g } := by
    rw [glLoop]
    norm_num [popMinBy, glLoopStep, glAbsorb, eraseFirst, dlookup, dset, undecided, glDraw]
    rw [glLoop_empty_pq]
    rfl
  simp only [h2]
  norm_num [glFinal, glFinal1, dlookup, dset]

/-- Witness for the amended C9 statement at a concrete instance. -/
theorem filler_scenario_amended_witness :
    set_game_locations [(0, [])] [(0, ⟨2, [6, 7, 8, 9]⟩)] [] true none zeroRng 3
      = .ok ([(0, [])], [(0, ⟨0, 2⟩)], []) :=
  filler_scenario_amended 0 [6, 7, 8, 9] [] true zeroRng 3 rfl (by norm_num)

/-! ## C10: the free-week count never drops below the 2 reserved byes -/

/-- Every team of the schedule that has an availability record keeps at least
the 2 reserved bye weeks. -/
def InfoFreeOk (schedule : Schedule) (d : Dict Team SInfo) : Prop :=
  ∀ t si, t ∈ dkeys schedule → dlookup d t = some si → 2 ≤ si.free

/-- Decidable form of the C10 hypothesis on the raw inputs. -/
def freeOkB (schedule : Schedule) (info : Avail) : Bool :=
  schedule.all (fun p =>
    match dlookup info p.1 with
    | some r => decide (2 ≤ r.free_weeks.length)
    | none => true)

theorem InfoFreeOk_dset {schedule : Schedule} {d : Dict Team SInfo} {k : Team} {v : SInfo}
    (h : InfoFreeOk schedule d) (hv : k ∈ dkeys schedule → 2 ≤ v.free) :
    InfoFreeOk schedule (dset d k v) := by
  intro t si ht hsi
  by_cases hk : t = k
  · subst hk
    rw [dlookup_dset_self] at hsi
    cases hsi
    exact hv ht
  · rw [dlookup_dset_ne _ _ _ _ hk] at hsi
    exact h t si ht hsi

theorem dlookup_map_value {α β γ : Type} [DecidableEq α] (d : Dict α β) (f : β → γ)
    (k : α) : dlookup (d.map (fun p => (p.1, f p.2))) k = (dlookup d k).map f := by
  induction d with
  | nil => rfl
  | cons p rest ih =>
    obtain ⟨a, b⟩ := p
    by_cases ha : a = k <;> simp [dlookup, ha, ih]

theorem dlookup_info_reduced (info : Avail) (k : Team) :
    dlookup (info.map (fun p =>
        (p.1, (⟨p.2.balance, (p.2.free_weeks.length : Int)⟩ : SInfo)))) k
      = (dlookup info k).map
          (fun r => (⟨r.balance, (r.free_weeks.length : Int)⟩ : SInfo)) := by
  induction info with
  | nil => rfl
  | cons p rest ih =>
    obtain ⟨a, b⟩ := p
    by_cases ha : a = k <;> simp [dlookup, ha, ih]

theorem buildOppPq_info (prefs : Requests) (respect truthy : Bool) (team : Team)
    (adjustment balance : Int) :
    ∀ (l : List (Team × Nat)) (st : GLState) (acc : List OppEntry),
      (buildOppPq prefs respect truthy team adjustment balance l st acc
        ≠ .error .assertionError) ∧
      ∀ q st', buildOppPq prefs respect truthy team adjustment balance l st acc
        = .ok (q, st') → st'.info = st.info := by
  intro l
  induction l with
  | nil =>
    intro st acc
    refine ⟨by simp [buildOppPq], fun q st' h => ?_⟩
    simp [buildOppPq] at h
    rw [← h.2]
  | cons p rest ih =>
    intro st acc
    obtain ⟨opp, w⟩ := p
    rw [buildOppPq]
    constructor
    · repeat' split
      all_goals first
        | exact (ih _ _).1
        | simp
    · intro q st' h
      repeat' split at h
      all_goals first
        | (have hh := (ih _ _).2 _ _ h
           exact hh)
        | simp at h

theorem glInnerStep_protects (schedule : Schedule) (truthy : Bool) (team : Team)
    (setting : Bool) (adjustment : Int) (opp : Team) (balance : Int) (st : GLState)
    (hinv : InfoFreeOk schedule st.info) :
    (glInnerStep schedule truthy team setting adjustment opp balance st
      ≠ .error .assertionError) ∧
    ∀ b' st', glInnerStep schedule truthy team setting adjustment opp balance st
      = .ok (b', st') → InfoFreeOk schedule st'.info := by
  have hbase : ∀ (oi : SInfo), dlookup st.info opp = some oi →
      InfoFreeOk schedule (dset st.info opp { oi with balance := oi.balance - adjustment }) := by
    intro oi hi
    refine InfoFreeOk_dset hinv (fun hmem => ?_)
    exact hinv opp oi hmem hi
  rw [glInnerStep]
  dsimp only
  constructor
  · repeat' split
    all_goals try simp
    all_goals
      rename_i e heq
      repeat' split at heq
      all_goals first
        | (injection heq with he
           subst he
           decide)
        | (cases heq)
  · intro b' st' h
    split at h
    any_goals solve | (apply absurd h; simp)
    rename_i stgTeam hstg
    split at h
    any_goals solve | (apply absurd h; simp)
    rename_i gamesOpp stgOpp oi oldSeed hg hs hi hsd
    split at h
    any_goals solve | (apply absurd h; simp)
    rename_i oldP heqP
    split at h
    any_goals solve | (apply absurd h; simp)
    rename_i stgOpp2 hstg2
    split at h
    any_goals solve | (apply absurd h; simp)
    rename_i st2 hst2
    have hst2info : st2.info = dset st.info opp { oi with balance := oi.balance - adjustment } := by
      repeat' split at hst2
      all_goals first
        | (injection hst2 with he
           rw [← he])
        | injection hst2
    have hconc : ∀ hx : st'.info = st2.info, InfoFreeOk schedule st'.info := by
      intro hx
      rw [hx, hst2info]
      exact hbase _ hi
    by_cases hre : oi.balance - adjustment ≠ 0 ∨ 0 < (undecided gamesOpp stgOpp2).length
    · rw [if_pos hre] at h
      simp only [Except.ok.injEq, Prod.mk.injEq] at h
      exact hconc (congrArg GLState.info h.2).symm
    · rw [if_neg hre] at h
      simp only [Except.ok.injEq, Prod.mk.injEq] at h
      exact hconc (congrArg GLState.info h.2).symm

theorem glInner_protects (schedule : Schedule) (truthy : Bool) (team : Team)
    (setting : Bool) (adjustment : Int) :
    ∀ (N : Nat) (oppq : List OppEntry) (balance : Int) (st : GLState),
      oppq.length ≤ N → InfoFreeOk schedule st.info →
      (glInner schedule truthy team setting adjustment oppq balance st
        ≠ .error .assertionError) ∧
      ∀ b' st', glInner schedule truthy team setting adjustment oppq balance st
        = .ok (b', st') → InfoFreeOk schedule st'.info := by
  intro N
  induction N with
  | zero =>
    intro oppq balance st hlen hinv
    have hq : oppq = [] := List.length_eq_zero.1 (Nat.le_zero.1 hlen)
    subst hq
    rw [glInner]
    constructor
    · split
      · simp
      · simp only [popMinBy]
        simp
    · intro b' st' h
      split at h
      · simp at h
        rw [← h.2]
        exact hinv
      · simp only [popMinBy] at h
        simp at h
        rw [← h.2]
        exact hinv
  | succ n ih =>
    intro oppq balance st hlen hinv
    by_cases hc : (if team ∈ st.bnd then (oppq.length : Int) else balance) = 0
    · rw [glInner, if_pos hc]
      refine ⟨by simp, fun b' st' h => ?_⟩
      simp at h
      rw [← h.2]
      exact hinv
    · rw [glInner, if_neg hc]
      constructor
      · split
        · simp
        · rename_i e1 e2 e3 opp rest hpop
          have hrest : rest.length ≤ n := by
            have := popMinBy_length oppEntryLe oppq _ _ hpop
            omega
          obtain ⟨hstep1, hstep2⟩ :=
            glInnerStep_protects schedule truthy team setting adjustment opp balance st hinv
          split
          · rename_i e' hcall
            intro hcontra
            injection hcontra with he
            subst he
            exact hstep1 hcall
          · rename_i balance' st1 hcall
            exact (ih rest balance' st1 hrest (hstep2 _ _ hcall)).1
      · intro b' st' h
        split at h
        · simp at h
          rw [← h.2]
          exact hinv
        · rename_i e1 e2 e3 opp rest hpop
          have hrest : rest.length ≤ n := by
            have := popMinBy_length oppEntryLe oppq _ _ hpop
            omega
          obtain ⟨hstep1, hstep2⟩ :=
            glInnerStep_protects schedule truthy team setting adjustment opp balance st hinv
          split at h
          · cases h
          · rename_i balance' st1 hcall
            exact (ih rest balance' st1 hrest (hstep2 _ _ hcall)).2 b' st' h

theorem glAbsorb_protects (schedule : Schedule) (team : Team) (si : SInfo) (st : GLState)
    (hinv : InfoFreeOk schedule st.info) :
    (glAbsorb team si st ≠ .error .assertionError) ∧
    ∀ st', glAbsorb team si st = .ok st' → InfoFreeOk schedule st'.info := by
  rw [glAbsorb]
  dsimp only
  constructor
  · split
    · split <;> simp
    · simp
  · intro st' h
    split at h
    · rename_i hcpu
      split at h
      · simp at h
      · simp only [Except.ok.injEq] at h
        rw [← h]
        refine InfoFreeOk_dset hinv (fun _ => ?_)
        have := min_le_left (si.free - 2) |si.balance|
        simp only []
        omega
    · simp only [Except.ok.injEq] at h
      rw [← h]
      exact hinv

theorem glLoopStep_protects (schedule : Schedule) (prefs : Requests) (respect truthy : Bool)
    (team : Team) (st : GLState) (hinv : InfoFreeOk schedule st.info) :
    (glLoopStep schedule prefs respect truthy team st ≠ .error .assertionError) ∧
    ∀ st', glLoopStep schedule prefs respect truthy team st = .ok st' →
      InfoFreeOk schedule st'.info := by
  rw [glLoopStep]
  cases h1 : dlookup st.info team with
  | none =>
    cases h2 : dlookup schedule team <;>
      exact ⟨by simp, fun st' h => by simp at h⟩
  | some si =>
    cases h2 : dlookup schedule team with
    | none => exact ⟨by simp, fun st' h => by simp at h⟩
    | some games =>
      dsimp only
      obtain ⟨habs1, habs2⟩ := glAbsorb_protects schedule team si st hinv
      cases hab : glAbsorb team si st with
      | error e =>
        refine ⟨fun hcontra => ?_, fun st' h => by simp at h⟩
        injection hcontra with he
        subst he
        exact habs1 hab
      | ok stA =>
        have hinvA := habs2 stA hab
        cases h3 : dlookup stA.info team with
        | none =>
          cases h4 : dlookup stA.settings team <;>
            exact ⟨by simp [h3, h4], fun st' h => by simp [h3, h4] at h⟩
        | some si' =>
          cases h4 : dlookup stA.settings team with
          | none => exact ⟨by simp [h3, h4], fun st' h => by simp [h3, h4] at h⟩
          | some stgTeam =>
            simp only [h3, h4]
            split
            · -- balance zero and not in bnd: possible low-priority re-enqueue
              split
              · exact ⟨by simp, fun st' h => by
                  simp only [Except.ok.injEq] at h
                  rw [← h]
                  exact hinvA⟩
              · exact ⟨by simp, fun st' h => by
                  simp only [Except.ok.injEq] at h
                  rw [← h]
                  exact hinvA⟩
            · obtain ⟨hbq1, hbq2⟩ :=
                buildOppPq_info prefs respect truthy team
                  (if si.balance < 0 then 1 else -1) si'.balance games stA []
              cases hbq : buildOppPq prefs respect truthy team
                  (if si.balance < 0 then 1 else -1) si'.balance games stA [] with
              | error e =>
                refine ⟨fun hcontra => ?_, fun st' h => by simp at h⟩
                injection hcontra with he
                subst he
                exact hbq1 hbq
              | ok p =>
                obtain ⟨oppq, stB⟩ := p
                have hinvB : InfoFreeOk schedule stB.info := by
                  rw [hbq2 oppq stB hbq]
                  exact hinvA
                dsimp only
                constructor
                · split
                  · rename_i e hin
                    intro hcontra
                    injection hcontra with he
                    subst he
                    exact (glInner_protects schedule truthy team _ _ oppq.length oppq
                      si'.balance stB (le_refl _) hinvB).1 hin
                  · rename_i balance' stC hin
                    repeat' split
                    all_goals simp
                · intro st' h
                  split at h
                  · cases h
                  · rename_i balance' stC hin
                    have hinvC := (glInner_protects schedule truthy team _ _ oppq.length oppq
                      si'.balance stB (le_refl _) hinvB).2 balance' stC hin
                    split at h
                    any_goals cases h
                    rename_i si'' stgTeam' h5 h6
                    have hinvD : InfoFreeOk schedule
                        (dset stC.info team { si'' with balance := balance' }) :=
                      InfoFreeOk_dset hinvC (fun hmem => hinvC team si'' hmem h5)
                    split at h <;>
                      (simp only [Except.ok.injEq] at h
                       rw [← h]
                       exact hinvD)

theorem glLoop_protects (schedule : Schedule) (prefs : Requests) (respect truthy : Bool) :
    ∀ (fuel : Nat) (st : GLState), InfoFreeOk schedule st.info →
      (glLoop schedule prefs respect truthy fuel st ≠ .error .assertionError) ∧
      ∀ st', glLoop schedule prefs respect truthy fuel st = .ok st' →
        InfoFreeOk schedule st'.info := by
  intro fuel
  induction fuel with
  | zero =>
    intro st hinv
    rw [glLoop]
    split
    · exact ⟨by simp, fun st' h => by simp at h; rw [← h]; exact hinv⟩
    · exact ⟨by simp, fun st' h => by simp at h⟩
  | succ n ih =>
    intro st hinv
    rw [glLoop]
    split
    · exact ⟨by simp, fun st' h => by simp at h; rw [← h]; exact hinv⟩
    · rename_i e1 e2 team pqRest hpop
      have hinv' : InfoFreeOk schedule ({ st with pq := pqRest } : GLState).info := hinv
      obtain ⟨hs1, hs2⟩ := glLoopStep_protects schedule prefs respect truthy team
        { st with pq := pqRest } hinv'
      cases hcall : glLoopStep schedule prefs respect truthy team { st with pq := pqRest } with
      | error e =>
        simp only [hcall]
        refine ⟨fun hcontra => ?_, fun st' h => by simp at h⟩
        injection hcontra with he
        subst he
        exact hs1 hcall
      | ok st1 =>
        simp only [hcall]
        exact ih st1 (hs2 st1 hcall)

theorem glFinal1_no_assert (team : Team) (st : GLState) (errors : Dict Team Rat)
    (hfree : ∀ si, dlookup st.info team = some si → 2 ≤ si.free) :
    glFinal1 team st errors ≠ .error .assertionError := by
  rw [glFinal1]
  cases h1 : dlookup st.info team with
  | none => cases h2 : dlookup st.cpu team <;> simp
  | some si =>
    cases h2 : dlookup st.cpu team with
    | none => simp
    | some cg =>
      have h2le := hfree si h1
      dsimp only
      split
      · omega
      · split <;> simp

theorem glFinal1_info (team : Team) (st : GLState) (errors : Dict Team Rat) :
    ∀ st' errors', glFinal1 team st errors = .ok (st', errors') → st'.info = st.info := by
  intro st' errors' h
  rw [glFinal1] at h
  dsimp only at h
  repeat' split at h
  all_goals first
    | (simp only [Except.ok.injEq, Prod.mk.injEq] at h
       rw [← h.1])
    | cases h

theorem glFinal_no_assert (l : List (Team × Dict Team Nat)) :
    ∀ (st : GLState) (errors : Dict Team Rat),
      (∀ p ∈ l, ∀ si, dlookup st.info p.1 = some si → 2 ≤ si.free) →
      glFinal l st errors ≠ .error .assertionError := by
  induction l with
  | nil =>
    intro st errors _
    simp [glFinal]
  | cons p rest ih =>
    intro st errors hfree
    obtain ⟨team, games⟩ := p
    rw [glFinal]
    cases hcall : glFinal1 team st errors with
    | error e =>
      intro hcontra
      injection hcontra with he
      subst he
      exact glFinal1_no_assert team st errors
        (fun si h => hfree (team, games) (List.mem_cons_self _ _) si h) hcall
    | ok q =>
      obtain ⟨st1, errors1⟩ := q
      dsimp only
      refine ih st1 errors1 (fun q hq si h => ?_)
      refine hfree q (List.mem_cons_of_mem _ hq) si ?_
      rw [← glFinal1_info team st errors st1 errors1 hcall]
      exact h

theorem freeOkB_spec (schedule : Schedule) (info : Avail) (h : freeOkB schedule info = true) :
    ∀ t ∈ dkeys schedule, ∀ r, dlookup info t = some r → 2 ≤ r.free_weeks.length := by
  intro t ht r hr
  simp only [freeOkB, List.all_eq_true] at h
  obtain ⟨p, hp, hpt⟩ := List.mem_map.1 ht
  have := h p hp
  rw [hpt, hr] at this
  simpa using this

theorem glInit_protects (truthy : Bool) :
    ∀ (l : List (Team × Dict Team Nat)) (st : GLState),
      (glInit truthy l st ≠ .error .assertionError) ∧
      ∀ st', glInit truthy l st = .ok st' → st'.info = st.info := by
  intro l
  induction l with
  | nil =>
    intro st
    refine ⟨by simp [glInit], fun st' h => ?_⟩
    simp only [glInit, Except.ok.injEq] at h
    rw [← h]
  | cons p rest ih =>
    intro st
    obtain ⟨team, games⟩ := p
    rw [glInit]
    cases hl : dlookup st.info team with
    | none => exact ⟨by simp, fun st' h => by simp at h⟩
    | some si =>
      dsimp only
      constructor
      · exact (ih _).1
      · intro st' h
        have := (ih _).2 st' h
        rw [this]

/-- C10: provided every team of the input Schedule keeps at least the two
reserved bye weeks in the post-scheduling Availability snapshot, the final
filler pass assertion num_needed >= 0 of line 347 holds on every execution:
the filler consumption of lines 254-264 never drives a free-week count below
2, so set_game_locations never raises AssertionError. -/
theorem filler_assert_never_fails (schedule : Schedule) (info : Avail) (prefs : Requests)
    (respect : Bool) (seedArg : Option Int) (g : RNG) (fuel : Nat)
    (hfree : freeOkB schedule info = true) :
    set_game_locations schedule info prefs respect seedArg g fuel
      ≠ .error .assertionError := by
  have hok : InfoFreeOk schedule
      (info.map (fun p => (p.1, (⟨p.2.balance, (p.2.free_weeks.length : Int)⟩ : SInfo)))) := by
    intro t si ht hsi
    rw [dlookup_info_reduced] at hsi
    cases hr : dlookup info t with
    | none => rw [hr] at hsi; cases hsi
    | some r =>
      rw [hr] at hsi
      simp only [Option.map_some'] at hsi
      have h2 : 2 ≤ r.free_weeks.length := freeOkB_spec schedule info hfree t ht r hr
      injection hsi with hsi'
      rw [← hsi']
      show (2 : Int) ≤ (r.free_weeks.length : Int)
      exact_mod_cast h2
  intro hcontra
  rw [set_game_locations.eq_def] at hcontra
  dsimp only at hcontra
  split at hcontra
  · rename_i e hInit
    injection hcontra with he
    subst he
    exact (glInit_protects _ schedule _).1 hInit
  · rename_i st0 hInit
    have h0 : InfoFreeOk schedule st0.info := by
      rw [(glInit_protects _ schedule _).2 st0 hInit]
      exact hok
    split at hcontra
    · rename_i e hLoop
      injection hcontra with he
      subst he
      exact (glLoop_protects schedule prefs respect _ fuel st0 h0).1 hLoop
    · rename_i st1 hLoop
      have h1 : InfoFreeOk schedule st1.info :=
        (glLoop_protects schedule prefs respect _ fuel st0 h0).2 st1 hLoop
      split at hcontra
      · rename_i e hFin
        injection hcontra with he
        subst he
        refine glFinal_no_assert schedule st1 [] (fun p hp si h => ?_) hFin
        exact h1 p.1 si (List.mem_map.2 ⟨p, hp, rfl⟩) h
      · rename_i q hFin
        cases hcontra

/-- Witness for C10 at a concrete input: two teams playing each other with
balances 1 and -1, three free weeks each. -/
theorem filler_assert_never_fails_witness :
    freeOkB [(0, [(1, 3)]), (1, [(0, 3)])]
        [(0, ⟨1, [1, 2, 4]⟩), (1, ⟨-1, [2, 3, 5]⟩)] = true ∧
    set_game_locations [(0, [(1, 3)]), (1, [(0, 3)])]
        [(0, ⟨1, [1, 2, 4]⟩), (1, ⟨-1, [2, 3, 5]⟩)]
        [(0, [(1, none)]), (1, [(0, none)])] false none zeroRng 5
      ≠ .error .assertionError :=
  ⟨rfl, filler_assert_never_fails _ _ _ _ _ _ _ rfl⟩

/-! ## C3: symmetry of the Schedule and of the Location Assignment -/

/-- The committed Schedule is symmetric with equal weeks in both directions. -/
def SchedSymm (s : Schedule) : Prop := ∀ a b, dlookup2 s a b = dlookup2 s b a

/-- One side's home game is the other side's away game. -/
def PairInv (s : Dict Team (Dict Team Bool)) : Prop :=
  ∀ a b, dlookup2 s a b = (dlookup2 s b a).map not

theorem dlookup2_dset_row {β : Type} (S : Dict Team (Dict Team β)) (a : Team)
    (d : Dict Team β) (x y : Team) :
    dlookup2 (dset S a d) x y = if x = a then dlookup d y else dlookup2 S x y := by
  by_cases hx : x = a
  · subst hx
    simp [dlookup2, dlookup_dset_self]
  · simp [dlookup2, dlookup_dset_ne S a x d hx, hx]

theorem dlookup2_dset2 (s : Schedule) (a b : Team) (w : Nat) (x y : Team) :
    dlookup2 (dset2 s a b w) x y = if x = a ∧ y = b then some w else dlookup2 s x y := by
  rw [dset2]
  cases hrow : dlookup s a with
  | none =>
    rw [dlookup2_dset_row]
    by_cases hx : x = a
    · subst hx
      by_cases hy : y = b
      · simp [hy, dlookup]
      · simp [hy, dlookup, Ne.symm hy, dlookup2, hrow]
    · simp [hx]
  | some inner =>
    rw [dlookup2_dset_row]
    by_cases hx : x = a
    · subst hx
      by_cases hy : y = b
      · simp [hy, dlookup_dset_self]
      · simp [hy, dlookup_dset_ne inner b y w hy, dlookup2, hrow]
    · simp [hx]

theorem schedSymm_commit {s : Schedule} (h : SchedSymm s) (a b : Team) (w : Nat) :
    SchedSymm (dset2 (dset2 s a b w) b a w) := by
  intro x y
  rw [dlookup2_dset2, dlookup2_dset2, dlookup2_dset2, dlookup2_dset2]
  by_cases h1 : x = b ∧ y = a
  · obtain ⟨hx, hy⟩ := h1
    subst hx
    subst hy
    by_cases hab : x = y
    · subst hab
      simp
    · simp [hab, Ne.symm hab]
  · by_cases h2 : x = a ∧ y = b
    · obtain ⟨hx, hy⟩ := h2
      subst hx
      subst hy
      simp [h1]
    · have h1' : ¬(y = b ∧ x = a) := fun hh => h2 ⟨hh.2, hh.1⟩
      have h2' : ¬(y = a ∧ x = b) := fun hh => h1 ⟨hh.2, hh.1⟩
      simp only [if_neg h1, if_neg h2, if_neg h1', if_neg h2']
      exact h x y

theorem propagatePair_frame (info : Avail) (m : Matchup) (w : Nat) (t : Team)
    (st : FSState) (opp : Team) (st' : FSState)
    (h : propagatePair info m w t st opp = some st') :
    st'.schedule = st.schedule ∧ st'.errors = st.errors ∧ st'.requests = st.requests := by
  rw [propagatePair] at h
  dsimp only at h
  repeat' split at h
  all_goals first
    | (injection h with h
       subst h
       exact ⟨rfl, rfl, rfl⟩)
    | (exact absurd h (by simp))

theorem propagateOpps_frame (info : Avail) (m : Matchup) (w : Nat) (t : Team) :
    ∀ (l : List (Team × Option Bool)) (st st' : FSState),
      propagateOpps info m w t l st = some st' →
      st'.schedule = st.schedule ∧ st'.errors = st.errors ∧ st'.requests = st.requests := by
  intro l
  induction l with
  | nil =>
    intro st st' h
    simp only [propagateOpps, Option.some.injEq] at h
    rw [← h]
    exact ⟨rfl, rfl, rfl⟩
  | cons p rest ih =>
    intro st st' h
    obtain ⟨opp, pref⟩ := p
    rw [propagateOpps] at h
    split at h
    · simp at h
    · rename_i st1 hpair
      obtain ⟨h1, h2, h3⟩ := propagatePair_frame info m w t st opp st1 hpair
      obtain ⟨h4, h5, h6⟩ := ih st1 st' h
      exact ⟨h4.trans h1, h5.trans h2, h6.trans h3⟩

theorem propagateTeam_frame (info : Avail) (m : Matchup) (w : Nat) (t : Team)
    (st st' : FSState) (h : propagateTeam info m w t st = some st') :
    st'.schedule = st.schedule ∧ st'.errors = st.errors ∧ st'.requests = st.requests := by
  rw [propagateTeam] at h
  split at h
  · simp at h
  · exact propagateOpps_frame info m w t _ st st' h

theorem fsLoop_symm (info : Avail) :
    ∀ (fuel : Nat) (st : FSState), SchedSymm st.schedule →
      ∀ s e, fsLoop info fuel st = some (s, e) → SchedSymm s := by
  intro fuel
  induction fuel with
  | zero =>
    intro st hsym s e h
    rw [fsLoop] at h
    split at h
    · simp only [Option.some.injEq, Prod.mk.injEq] at h
      rw [← h.1]
      exact hsym
    · simp at h
  | succ n ih =>
    intro st hsym s e h
    rw [fsLoop] at h
    split at h
    · simp only [Option.some.injEq, Prod.mk.injEq] at h
      rw [← h.1]
      exact hsym
    · rename_i e1 e2 m pqRest hpop
      dsimp only at h
      split at h
      · simp at h
      · rename_i common hcfw
        split at h
        · simp at h
        · rename_i cnts hgather
          split at h
          · refine ih _ ?_ s e h
            exact hsym
          · split at h
            · simp at h
            · rename_i req1 hdel1
              split at h
              · simp at h
              · rename_i req2 hdel2
                split at h
                · simp at h
                · rename_i st2 hprop1
                  split at h
                  · simp at h
                  · rename_i st3 hprop2
                    refine ih st3 ?_ s e h
                    have hf2 := (propagateTeam_frame info m _ m.2 st2 st3 hprop2).1
                    have hf1 := (propagateTeam_frame info m _ m.1 _ st2 hprop1).1
                    rw [hf2, hf1]
                    exact schedSymm_commit hsym m.1 m.2 _

theorem phase1Pair_frame (requests : Requests) (info : Avail) (team : Team)
    (st : FSState) (opp : Team) (st' : FSState)
    (h : phase1Pair requests info team st opp = some st') :
    st'.schedule = st.schedule ∧ st'.errors = st.errors ∧ st'.requests = st.requests := by
  rw [phase1Pair] at h
  dsimp only at h
  repeat' split at h
  all_goals first
    | (injection h with h
       subst h
       exact ⟨rfl, rfl, rfl⟩)
    | (exact absurd h (by simp))

theorem phase1Opps_frame (requests : Requests) (info : Avail) (team : Team) :
    ∀ (l : List (Team × Option Bool)) (st st' : FSState),
      phase1Opps requests info team l st = some st' →
      st'.schedule = st.schedule ∧ st'.errors = st.errors ∧ st'.requests = st.requests := by
  intro l
  induction l with
  | nil =>
    intro st st' h
    simp only [phase1Opps, Option.some.injEq] at h
    rw [← h]
    exact ⟨rfl, rfl, rfl⟩
  | cons p rest ih =>
    intro st st' h
    obtain ⟨opp, pref⟩ := p
    rw [phase1Opps] at h
    split at h
    · simp at h
    · rename_i st1 hpair
      obtain ⟨h1, h2, h3⟩ := phase1Pair_frame requests info team st opp st1 hpair
      obtain ⟨h4, h5, h6⟩ := ih st1 st' h
      exact ⟨h4.trans h1, h5.trans h2, h6.trans h3⟩

theorem phase1Teams_frame (requests : Requests) (info : Avail) :
    ∀ (l : List (Team × Dict Team (Option Bool))) (st st' : FSState),
      phase1Teams requests info l st = some st' →
      st'.schedule = st.schedule ∧ st'.errors = st.errors ∧ st'.requests = st.requests := by
  intro l
  induction l with
  | nil =>
    intro st st' h
    simp only [phase1Teams, Option.some.injEq] at h
    rw [← h]
    exact ⟨rfl, rfl, rfl⟩
  | cons p rest ih =>
    intro st st' h
    obtain ⟨team, opps⟩ := p
    rw [phase1Teams] at h
    split at h
    · simp at h
    · rename_i st1 hopps
      obtain ⟨h1, h2, h3⟩ := phase1Opps_frame requests info team opps st st1 hopps
      obtain ⟨h4, h5, h6⟩ := ih st1 st' h
      exact ⟨h4.trans h1, h5.trans h2, h6.trans h3⟩

/-- Effect on the pairing invariant of the two symmetric writes of lines
305-313: settings[team][opp] = setting and settings[opp][team] = not setting. -/
theorem pairInv_write (S : Dict Team (Dict Team Bool)) (team opp : Team)
    (stgTeam stgOpp : Dict Team Bool) (v : Bool)
    (hne : opp ≠ team)
    (hT : dlookup S team = some stgTeam)
    (hO : dlookup S opp = some stgOpp)
    (h : PairInv S) :
    PairInv (dset (dset S team (dset stgTeam opp v)) opp (dset stgOpp team (!v))) := by
  have eT : ∀ z, dlookup stgTeam z = dlookup2 S team z := by
    intro z
    simp only [dlookup2, hT]
  have eO : ∀ z, dlookup stgOpp z = dlookup2 S opp z := by
    intro z
    simp only [dlookup2, hO]
  intro x y
  simp only [dlookup2_dset_row]
  by_cases hxo : x = opp
  · by_cases hyt : y = team
    · simp [hxo, hyt, hne, Ne.symm hne, dlookup_dset_self]
    · by_cases hyo : y = opp
      · simp only [hxo, hyo]
        simp [dlookup_dset_ne stgOpp team opp (!v) hne, eO]
        exact h opp opp
      · simp only [hxo]
        simp [hyo, hyt, dlookup_dset_ne stgOpp team y (!v) hyt, eO]
        exact h opp y
  · by_cases hxt : x = team
    · by_cases hyo : y = opp
      · simp [hxt, hyo, hne, Ne.symm hne, dlookup_dset_self]
      · by_cases hyt : y = team
        · simp only [hxt, hyt]
          simp [Ne.symm hne, dlookup_dset_ne stgTeam opp team v (Ne.symm hne), eT]
          exact h team team
        · simp only [hxt]
          simp [Ne.symm hne, hyo, hyt, dlookup_dset_ne stgTeam opp y v hyo, eT]
          exact h team y
    · by_cases hyo : y = opp
      · simp only [hyo]
        simp [hxo, hxt, dlookup_dset_ne stgOpp team x (!v) hxt, eO]
        exact h x opp
      · by_cases hyt : y = team
        · simp only [hyt]
          simp [hxo, hxt, Ne.symm hne, dlookup_dset_ne stgTeam opp x v hxo, eT]
          exact h x team
        · simp [hxo, hxt, hyo, hyt]
          exact h x y

theorem glInnerStep_pair (schedule : Schedule) (truthy : Bool) (team : Team)
    (setting : Bool) (adjustment : Int) (opp : Team) (balance : Int) (st : GLState)
    (hne : opp ≠ team) (hinv : PairInv st.settings) :
    ∀ b' st', glInnerStep schedule truthy team setting adjustment opp balance st
      = .ok (b', st') → PairInv st'.settings := by
  intro b' st' h
  rw [glInnerStep] at h
  dsimp only at h
  split at h
  any_goals solve | (apply absurd h; simp)
  rename_i stgTeam hstg
  split at h
  any_goals solve | (apply absurd h; simp)
  rename_i gamesOpp stgOpp oi oldSeed hg hs hi hsd
  split at h
  any_goals solve | (apply absurd h; simp)
  rename_i oldP heqP
  split at h
  any_goals solve | (apply absurd h; simp)
  rename_i stgOpp2 hstg2
  split at h
  any_goals solve | (apply absurd h; simp)
  rename_i st2 hst2
  have hsO : dlookup st.settings opp = some stgOpp := by
    rw [dlookup_dset_ne st.settings team opp (dset stgTeam opp setting) hne] at hs
    exact hs
  have hst2set : st2.settings = dset (dset st.settings team (dset stgTeam opp setting)) opp
      (dset stgOpp team (!setting)) := by
    repeat' split at hst2
    all_goals first
      | (injection hst2 with he
         rw [← he])
      | (injection hst2)
  have hfin : PairInv st2.settings := by
    rw [hst2set]
    exact pairInv_write st.settings team opp stgTeam stgOpp setting hne hstg hsO hinv
  by_cases hre : oi.balance - adjustment ≠ 0 ∨ 0 < (undecided gamesOpp stgOpp2).length
  · rw [if_pos hre] at h
    simp only [Except.ok.injEq, Prod.mk.injEq] at h
    have hx := (congrArg GLState.settings h.2).symm
    rw [hx]
    exact hfin
  · rw [if_neg hre] at h
    simp only [Except.ok.injEq, Prod.mk.injEq] at h
    have hx := (congrArg GLState.settings h.2).symm
    rw [hx]
    exact hfin

theorem glInner_pair (schedule : Schedule) (truthy : Bool) (team : Team)
    (setting : Bool) (adjustment : Int) :
    ∀ (N : Nat) (oppq : List OppEntry) (balance : Int) (st : GLState),
      oppq.length ≤ N → (∀ e ∈ oppq, e.2.2.2 ≠ team) → PairInv st.settings →
      ∀ b' st', glInner schedule truthy team setting adjustment oppq balance st
        = .ok (b', st') → PairInv st'.settings := by
  intro N
  induction N with
  | zero =>
    intro oppq balance st hlen hopps hinv b' st' h
    have hq : oppq = [] := List.length_eq_zero.1 (Nat.le_zero.1 hlen)
    subst hq
    rw [glInner] at h
    split at h
    · simp at h
      rw [← h.2]
      exact hinv
    · simp only [popMinBy] at h
      simp at h
      rw [← h.2]
      exact hinv
  | succ n ih =>
    intro oppq balance st hlen hopps hinv b' st' h
    by_cases hc : (if team ∈ st.bnd then (oppq.length : Int) else balance) = 0
    · rw [glInner, if_pos hc] at h
      simp at h
      rw [← h.2]
      exact hinv
    · rw [glInner, if_neg hc] at h
      split at h
      · simp at h
        rw [← h.2]
        exact hinv
      · rename_i e1 e2 e3 opp rest hpop
        have hrest : rest.length ≤ n := by
          have := popMinBy_length oppEntryLe oppq _ _ hpop
          omega
        have hmem := (popMinBy_some oppEntryLe oppq _ _ hpop).1
        have hrestmem : ∀ e ∈ rest, e.2.2.2 ≠ team := by
          intro e he
          have hr := (popMinBy_some oppEntryLe oppq _ _ hpop).2
          exact hopps e (mem_of_mem_eraseFirst (hr ▸ he))
        have hoppne : opp ≠ team := hopps _ hmem
        split at h
        · cases h
        · rename_i balance' st1 hcall
          have hinv1 := glInnerStep_pair schedule truthy team setting adjustment opp balance st
            hoppne hinv balance' st1 hcall
          exact ih rest balance' st1 hrest hrestmem hinv1 b' st' h

theorem glAbsorb_settings (team : Team) (si : SInfo) (st : GLState) :
    ∀ st', glAbsorb team si st = .ok st' → st'.settings = st.settings := by
  intro st' h
  rw [glAbsorb] at h
  dsimp only at h
  repeat' split at h
  all_goals first
    | (injection h with he
       rw [← he])
    | (injection h)

theorem buildOppPq_pair (prefs : Requests) (respect truthy : Bool) (team : Team)
    (adjustment balance : Int) :
    ∀ (l : List (Team × Nat)) (st : GLState) (acc : List OppEntry)
      (q : List OppEntry) (st' : GLState),
      (∀ p ∈ l, p.1 ≠ team) → (∀ e ∈ acc, e.2.2.2 ≠ team) →
      buildOppPq prefs respect truthy team adjustment balance l st acc = .ok (q, st') →
      st'.settings = st.settings ∧ ∀ e ∈ q, e.2.2.2 ≠ team := by
  intro l
  induction l with
  | nil =>
    intro st acc q st' hl hacc h
    rw [buildOppPq] at h
    simp only [Except.ok.injEq, Prod.mk.injEq] at h
    refine ⟨by rw [← h.2], ?_⟩
    rw [← h.1]
    exact hacc
  | cons p rest ih =>
    intro st acc q st' hl hacc h
    obtain ⟨opp, nn⟩ := p
    rw [buildOppPq] at h
    dsimp only at h
    split at h
    · cases h
    · rename_i stgTeam hstg
      split at h
      · exact ih st acc q st' (fun p hp => hl p (List.mem_cons_of_mem _ hp)) hacc h
      · split at h
        · cases h
        · rename_i pref hpref
          split at h
          · cases h
          · rename_i oi hoi
            obtain ⟨h1, h2⟩ := ih _ _ q st'
              (fun p hp => hl p (List.mem_cons_of_mem _ hp))
              (fun e he => by
                rcases List.mem_cons.1 he with he' | he'
                · rw [he']
                  exact hl (opp, nn) (List.mem_cons_self _ _)
                · exact hacc e he') h
            exact ⟨h1, h2⟩

theorem glLoopStep_pair (schedule : Schedule) (prefs : Requests) (respect truthy : Bool)
    (team : Team) (st : GLState)
    (hirr : ∀ t, dlookup2 schedule t t = none)
    (hinv : PairInv st.settings) :
    ∀ st', glLoopStep schedule prefs respect truthy team st = .ok st' →
      PairInv st'.settings := by
  intro st' h
  rw [glLoopStep] at h
  split at h
  any_goals solve | (apply absurd h; simp)
  rename_i si games h1 h2
  dsimp only at h
  split at h
  any_goals solve | (apply absurd h; simp)
  rename_i stA hab
  have hinvA : PairInv stA.settings := by
    rw [glAbsorb_settings team si st stA hab]
    exact hinv
  split at h
  any_goals solve | (apply absurd h; simp)
  rename_i si' stgTeam h3 h4
  try dsimp only at h
  split at h
  · split at h
    · injection h with he
      rw [← he]
      exact hinvA
    · injection h with he
      rw [← he]
      exact hinvA
  · split at h
    any_goals solve | (apply absurd h; simp)
    rename_i oppq stB hbq
    have hl : ∀ p ∈ games, p.1 ≠ team := by
      intro p hp hpc
      have hks : p.1 ∈ dkeys games := List.mem_map.2 ⟨p, hp, rfl⟩
      have hsome := dlookup_isSome_of_mem_dkeys games p.1 hks
      have hnone : dlookup games team = none := by
        have hx := hirr team
        simp only [dlookup2, h2] at hx
        exact hx
      rw [hpc, hnone] at hsome
      simp at hsome
    obtain ⟨hsetB, hq⟩ := buildOppPq_pair prefs respect truthy team _ _ games stA [] oppq stB
      hl (by simp) hbq
    have hinvB : PairInv stB.settings := by
      rw [hsetB]
      exact hinvA
    split at h
    · cases h
    · rename_i balance' stC hin
      have hinvC := glInner_pair schedule truthy team _ _ oppq.length oppq
        si'.balance stB (le_refl _) hq hinvB balance' stC hin
      split at h
      any_goals cases h
      rename_i si'' stgTeam' h5 h6
      split at h <;>
        (simp only [Except.ok.injEq] at h
         rw [← h]
         exact hinvC)

theorem glLoop_pair (schedule : Schedule) (prefs : Requests) (respect truthy : Bool)
    (hirr : ∀ t, dlookup2 schedule t t = none) :
    ∀ (fuel : Nat) (st : GLState), PairInv st.settings →
      ∀ st', glLoop schedule prefs respect truthy fuel st = .ok st' →
        PairInv st'.settings := by
  intro fuel
  induction fuel with
  | zero =>
    intro st hinv st' h
    rw [glLoop] at h
    split at h
    · injection h with he
      rw [← he]
      exact hinv
    · cases h
  | succ n ih =>
    intro st hinv st' h
    rw [glLoop] at h
    split at h
    · injection h with he
      rw [← he]
      exact hinv
    · rename_i e1 e2 team pqRest hpop
      split at h
      · cases h
      · rename_i st1 hcall
        refine ih st1 ?_ st' h
        exact glLoopStep_pair schedule prefs respect truthy team { st with pq := pqRest }
          hirr hinv st1 hcall

/-- All inner dicts of the location settings are still empty, as right after
the set-up pass of lines 231-236. -/
def EmptyPairs (s : Dict Team (Dict Team Bool)) : Prop :=
  ∀ a b, dlookup2 s a b = none

theorem emptyPairs_pairInv {S : Dict Team (Dict Team Bool)} (h : EmptyPairs S) :
    PairInv S := by
  intro x y
  rw [h x y, h y x]
  rfl

theorem glInit_pairs (truthy : Bool) :
    ∀ (l : List (Team × Dict Team Nat)) (st st' : GLState), EmptyPairs st.settings →
      glInit truthy l st = .ok st' → EmptyPairs st'.settings := by
  intro l
  induction l with
  | nil =>
    intro st st' hp h
    rw [glInit] at h
    injection h with he
    rw [← he]
    exact hp
  | cons p rest ih =>
    intro st st' hp h
    obtain ⟨team, games⟩ := p
    rw [glInit] at h
    dsimp only at h
    split at h
    · cases h
    · rename_i si hsi
      refine ih _ st' (fun x y => ?_) h
      show dlookup2 (dset st.settings team []) x y = none
      rw [dlookup2_dset_row]
      split
      · rfl
      · exact hp x y

theorem glFinal1_settings (team : Team) (st : GLState) (errors : Dict Team Rat) :
    ∀ st' errors', glFinal1 team st errors = .ok (st', errors') →
      st'.settings = st.settings := by
  intro st' errors' h
  rw [glFinal1] at h
  dsimp only at h
  repeat' split at h
  all_goals first
    | (simp only [Except.ok.injEq, Prod.mk.injEq] at h
       rw [← h.1])
    | cases h

theorem glFinal_settings :
    ∀ (l : List (Team × Dict Team Nat)) (st : GLState) (errors : Dict Team Rat)
      (st' : GLState) (errors' : Dict Team Rat),
      glFinal l st errors = .ok (st', errors') → st'.settings = st.settings := by
  intro l
  induction l with
  | nil =>
    intro st errors st' errors' h
    rw [glFinal] at h
    simp only [Except.ok.injEq, Prod.mk.injEq] at h
    rw [← h.1]
  | cons p rest ih =>
    intro st errors st' errors' h
    obtain ⟨team, games⟩ := p
    rw [glFinal] at h
    split at h
    · cases h
    · rename_i st1 errors1 hcall
      rw [ih st1 errors1 st' errors' h, glFinal1_settings team st errors st1 errors1 hcall]

/-- C3: symmetry of the two outputs.  (a) The Schedule returned by
find_schedule records each game under both teams with the same week:
schedule[a][b] and schedule[b][a] always agree.  (b) For an input Schedule in
which no team plays itself, the location settings returned by
set_game_locations pair every home designation with the opposing away
designation: settings[a][b] is the boolean negation of settings[b][a]
whenever either is present. -/
theorem schedule_and_settings_symmetric :
    (∀ (requests : Requests) (info : Avail) (seedArg : Option Int) (g : RNG)
       (s : Schedule) (e : Dict Matchup String),
       find_schedule requests info seedArg g = some (s, e) → SchedSymm s) ∧
    (∀ (schedule : Schedule) (info : Avail) (prefs : Requests) (respect : Bool)
       (seedArg : Option Int) (g : RNG) (fuel : Nat)
       (stgs : Dict Team (Dict Team Bool)) (cpu : Dict Team CpuG) (err : Dict Team Rat),
       (∀ t, dlookup2 schedule t t = none) →
       set_game_locations schedule info prefs respect seedArg g fuel = .ok (stgs, cpu, err) →
       PairInv stgs) := by
  constructor
  · intro requests info seedArg g s e h
    rw [find_schedule] at h
    try dsimp only at h
    split at h
    · cases h
    · rename_i st1 hp1
      have hsched : st1.schedule = [] :=
        (phase1Teams_frame requests info requests _ st1 hp1).1
      refine fsLoop_symm info st1.pq.length st1 ?_ s e h
      rw [hsched]
      intro a b
      rfl
  · intro schedule info prefs respect seedArg g fuel stgs cpu err hirr h
    rw [set_game_locations.eq_def] at h
    dsimp only at h
    split at h
    · cases h
    · rename_i st1 hinit
      split at h
      · cases h
      · rename_i st2 hloop
        split at h
        · cases h
        · rename_i st3 errs hfin
          simp only [Except.ok.injEq, Prod.mk.injEq] at h
          have hpInit : EmptyPairs st1.settings := by
            refine glInit_pairs _ schedule _ st1 ?_ hinit
            intro a b
            rfl
          have hp2 : PairInv st2.settings :=
            glLoop_pair schedule prefs respect _ hirr fuel st1
              (emptyPairs_pairInv hpInit) st2 hloop
          have hs3 : st3.settings = st2.settings :=
            glFinal_settings schedule st2 [] st3 errs hfin
          rw [← h.1, hs3]
          exact hp2

theorem schedule_and_settings_symmetric_witness :
    SchedSymm [(0, [(1, 4)]), (1, [(0, 4)])] ∧
    PairInv [(2, []), (3, [])] := by
  constructor
  · exact schedule_and_settings_symmetric.1 [(0, [(1, none)]), (1, [(0, none)])]
      [(0, ⟨0, [4]⟩), (1, ⟨0, [4]⟩)] none zeroRng [(0, [(1, 4)]), (1, [(0, 4)])] []
      (by norm_num [find_schedule, phase1Teams, phase1Opps, phase1Pair, fsLoop, popMinBy,
        gatherCounts, gatherOpps, bumpCounts, leastKeys, propagateTeam, propagateOpps,
        propagatePair, pickWeek, npMedian, cumSums, sortedInter, sortAsc, insertAsc,
        dset2, ddel2, dlookup, dset, ddel, dkeys, RNG.next, fsEntryLe, matchupOf,
        zeroRng, eraseFirst])
  · exact schedule_and_settings_symmetric.2 [(2, [(3, 9)]), (3, [(2, 9)])]
      [(2, ⟨0, [6, 7]⟩), (3, ⟨0, [6, 7]⟩)] [] true none zeroRng 1
      [(2, []), (3, [])] [(2, ⟨0, 0⟩), (3, ⟨0, 0⟩)] []
      (by intro t
          rcases t with _ | _ | _ | _ | t <;> rfl)
      (by norm_num [set_game_locations, glInit, glLoop, glLoopStep, glAbsorb, glFinal,
        glFinal1, glDraw, popMinBy, undecided, eraseFirst, dlookup, dset, zeroRng])

/-! ## C4: the balance accounting identity of set_game_locations -/

/-- Home-minus-away count over one returned settings row. -/
def rowBal (r : Dict Team Bool) : Int :=
  (r.map (fun p => if p.2 then (1 : Int) else -1)).sum

/-- Home-minus-away count of a team in the Location Assignment, zero when the
team has no row. -/
def rowBalQ (s : Dict Team (Dict Team Bool)) (t : Team) : Rat :=
  match dlookup s t with
  | none => 0
  | some r => (rowBal r : Rat)

/-- Filler home-minus-away count of a team, zero when the team has no row. -/
def cpuBalQ (c : Dict Team CpuG) (t : Team) : Rat :=
  match dlookup c t with
  | none => 0
  | some cg => cg.home - cg.away

/-- The balance a team enters set_game_locations with, zero for unknown teams. -/
def initBalQ (info : Avail) (t : Team) : Rat :=
  match dlookup info t with
  | none => 0
  | some ti => (ti.balance : Rat)

/-- Lines 249-341 keep info[team]["balance"] equal to the input balance plus
the home-minus-away counts of the assigned real and filler games. -/
def GLIdent (info : Avail) (st : GLState) : Prop :=
  ∀ t si, dlookup st.info t = some si →
    (si.balance : Rat) = initBalQ info t + rowBalQ st.settings t + cpuBalQ st.cpu t

/-- Within the inner loop the running balance variable of the popped team
stands in for its stale info entry. -/
def GLIdentExcept (info : Avail) (team : Team) (runBal : Int) (st : GLState) : Prop :=
  (∀ t, t ≠ team → ∀ si, dlookup st.info t = some si →
    (si.balance : Rat) = initBalQ info t + rowBalQ st.settings t + cpuBalQ st.cpu t) ∧
  (runBal : Rat) = initBalQ info team + rowBalQ st.settings team + cpuBalQ st.cpu team

theorem rowBal_dset_fresh (r : Dict Team Bool) (k : Team) (v : Bool)
    (h : dlookup r k = none) :
    rowBal (dset r k v) = rowBal r + (if v then 1 else -1) := by
  induction r with
  | nil => simp [dset, rowBal]
  | cons p rest ih =>
    obtain ⟨a, b⟩ := p
    simp only [dlookup] at h
    by_cases hk : a = k
    · rw [if_pos hk] at h
      cases h
    · rw [if_neg hk] at h
      simp only [dset, if_neg hk]
      simp only [rowBal, List.map_cons, List.sum_cons] at ih ⊢
      rw [ih h]
      ring

theorem rowBalQ_dset_row (s : Dict Team (Dict Team Bool)) (a : Team) (d : Dict Team Bool)
    (t : Team) : rowBalQ (dset s a d) t = if t = a then (rowBal d : Rat) else rowBalQ s t := by
  by_cases ht : t = a
  · simp [rowBalQ, ht, dlookup_dset_self]
  · simp [rowBalQ, dlookup_dset_ne s a t d ht, ht]

theorem cpuBalQ_dset (c : Dict Team CpuG) (a : Team) (cg : CpuG) (t : Team) :
    cpuBalQ (dset c a cg) t = if t = a then cg.home - cg.away else cpuBalQ c t := by
  by_cases ht : t = a
  · simp [cpuBalQ, ht, dlookup_dset_self]
  · simp [cpuBalQ, dlookup_dset_ne c a t cg ht, ht]

theorem eraseFirst_sublist {α : Type} [DecidableEq α] (x : α) :
    ∀ l : List α, List.Sublist (eraseFirst x l) l := by
  intro l
  induction l with
  | nil => simp [eraseFirst]
  | cons a rest ih =>
    by_cases hx : a = x
    · simp only [eraseFirst, if_pos hx]
      exact List.sublist_cons_self a rest
    · simp only [eraseFirst, if_neg hx]
      exact List.Sublist.cons₂ a ih

theorem nodup_map_eraseFirst {α β : Type} [DecidableEq α] (f : α → β) (x : α) (l : List α)
    (h : (l.map f).Nodup) : ((eraseFirst x l).map f).Nodup :=
  ((eraseFirst_sublist x l).map f).nodup h

theorem glInnerStep_settings (schedule : Schedule) (truthy : Bool) (team : Team)
    (setting : Bool) (adjustment : Int) (opp : Team) (balance : Int) (st : GLState)
    (hne : opp ≠ team) :
    ∀ b' st', glInnerStep schedule truthy team setting adjustment opp balance st
      = .ok (b', st') →
      ∃ stgTeam stgOpp oi,
        dlookup st.settings team = some stgTeam ∧
        dlookup st.settings opp = some stgOpp ∧
        dlookup st.info opp = some oi ∧
        st'.settings = dset (dset st.settings team (dset stgTeam opp setting)) opp
          (dset stgOpp team (!setting)) ∧
        st'.info = dset st.info opp { oi with balance := oi.balance - adjustment } ∧
        st'.cpu = st.cpu ∧
        b' = balance + adjustment := by
  intro b' st' h
  rw [glInnerStep] at h
  dsimp only at h
  split at h
  any_goals solve | (apply absurd h; simp)
  rename_i stgTeam hstg
  split at h
  any_goals solve | (apply absurd h; simp)
  rename_i gamesOpp stgOpp oi oldSeed hg hs hi hsd
  split at h
  any_goals solve | (apply absurd h; simp)
  rename_i oldP heqP
  split at h
  any_goals solve | (apply absurd h; simp)
  rename_i stgOpp2 hstg2
  split at h
  any_goals solve | (apply absurd h; simp)
  rename_i st2 hst2
  have hsO : dlookup st.settings opp = some stgOpp := by
    rw [dlookup_dset_ne st.settings team opp (dset stgTeam opp setting) hne] at hs
    exact hs
  have h3 : st2.settings = dset (dset st.settings team (dset stgTeam opp setting)) opp
        (dset stgOpp team (!setting))
      ∧ st2.info = dset st.info opp { oi with balance := oi.balance - adjustment }
      ∧ st2.cpu = st.cpu := by
    repeat' split at hst2
    all_goals first
      | (injection hst2 with he
         rw [← he]
         exact ⟨rfl, rfl, rfl⟩)
      | (injection hst2)
  by_cases hre : oi.balance - adjustment ≠ 0 ∨ 0 < (undecided gamesOpp stgOpp2).length
  · rw [if_pos hre] at h
    simp only [Except.ok.injEq, Prod.mk.injEq] at h
    refine ⟨stgTeam, stgOpp, oi, hstg, hsO, hi, ?_, ?_, ?_, ?_⟩
    · rw [← h.2]
      exact h3.1
    · rw [← h.2]
      exact h3.2.1
    · rw [← h.2]
      exact h3.2.2
    · rw [← h.1]
  · rw [if_neg hre] at h
    simp only [Except.ok.injEq, Prod.mk.injEq] at h
    refine ⟨stgTeam, stgOpp, oi, hstg, hsO, hi, ?_, ?_, ?_, ?_⟩
    · rw [← h.2]
      exact h3.1
    · rw [← h.2]
      exact h3.2.1
    · rw [← h.2]
      exact h3.2.2
    · rw [← h.1]

theorem glInnerStep_bal (info : Avail) (schedule : Schedule) (truthy : Bool) (team : Team)
    (setting : Bool) (adjustment : Int) (opp : Team) (balance : Int) (st : GLState)
    (hadj : adjustment = 1 ∨ adjustment = -1)
    (hset : setting = decide (adjustment = 1))
    (hne : opp ≠ team)
    (hfresh : dlookup2 st.settings team opp = none)
    (hpair : PairInv st.settings)
    (hIE : GLIdentExcept info team balance st) :
    ∀ b' st', glInnerStep schedule truthy team setting adjustment opp balance st
      = .ok (b', st') → GLIdentExcept info team b' st' := by
  intro b' st' h
  obtain ⟨stgTeam, stgOpp, oi, hstg, hsO, hiO, hS, hI, hC, hB⟩ :=
    glInnerStep_settings schedule truthy team setting adjustment opp balance st hne b' st' h
  have hfT : dlookup stgTeam opp = none := by
    have hx := hfresh
    simp only [dlookup2, hstg] at hx
    exact hx
  have hfO : dlookup stgOpp team = none := by
    have hrev := hpair opp team
    rw [hfresh] at hrev
    simp only [Option.map_none'] at hrev
    simp only [dlookup2, hsO] at hrev
    exact hrev
  have hvT : (if setting = true then (1 : Int) else -1) = adjustment := by
    rcases hadj with h1 | h1 <;> subst h1 <;> simp [hset]
  have hvO : (if (!setting) = true then (1 : Int) else -1) = -adjustment := by
    rcases hadj with h1 | h1 <;> subst h1 <;> simp [hset]
  constructor
  · intro t ht si hsi
    rw [hI] at hsi
    rw [hS, hC]
    by_cases hto : t = opp
    · rw [hto] at hsi ⊢
      rw [dlookup_dset_self] at hsi
      injection hsi with hsi
      rw [← hsi]
      have hold := hIE.1 opp hne oi hiO
      rw [rowBalQ_dset_row, if_pos rfl, rowBal_dset_fresh stgOpp team (!setting) hfO, hvO]
      have hrS : rowBalQ st.settings opp = (rowBal stgOpp : Rat) := by
        simp [rowBalQ, hsO]
      rw [hrS] at hold
      push_cast at hold ⊢
      linarith
    · rw [dlookup_dset_ne st.info opp t _ hto] at hsi
      have hold := hIE.1 t ht si hsi
      rw [rowBalQ_dset_row, if_neg hto, rowBalQ_dset_row, if_neg ht]
      exact hold
  · rw [hB, hS, hC]
    rw [rowBalQ_dset_row, if_neg (Ne.symm hne), rowBalQ_dset_row, if_pos rfl]
    rw [rowBal_dset_fresh stgTeam opp setting hfT, hvT]
    have hold := hIE.2
    have hrS : rowBalQ st.settings team = (rowBal stgTeam : Rat) := by
      simp [rowBalQ, hstg]
    rw [hrS] at hold
    push_cast at hold ⊢
    linarith

theorem glInner_bal (info : Avail) (schedule : Schedule) (truthy : Bool) (team : Team)
    (setting : Bool) (adjustment : Int)
    (hadj : adjustment = 1 ∨ adjustment = -1)
    (hset : setting = decide (adjustment = 1)) :
    ∀ (N : Nat) (oppq : List OppEntry) (balance : Int) (st : GLState),
      oppq.length ≤ N →
      (∀ e ∈ oppq, e.2.2.2 ≠ team) →
      (∀ e ∈ oppq, dlookup2 st.settings team e.2.2.2 = none) →
      (oppq.map (fun e => e.2.2.2)).Nodup →
      PairInv st.settings →
      GLIdentExcept info team balance st →
      ∀ b' st', glInner schedule truthy team setting adjustment oppq balance st
        = .ok (b', st') → GLIdentExcept info team b' st' := by
  intro N
  induction N with
  | zero =>
    intro oppq balance st hlen hne hfr hnd hpair hIE b' st' h
    have hq : oppq = [] := List.length_eq_zero.1 (Nat.le_zero.1 hlen)
    subst hq
    rw [glInner] at h
    split at h
    · simp at h
      rw [← h.1, ← h.2]
      exact hIE
    · simp only [popMinBy] at h
      simp at h
      rw [← h.1, ← h.2]
      exact hIE
  | succ n ih =>
    intro oppq balance st hlen hne hfr hnd hpair hIE b' st' h
    by_cases hc : (if team ∈ st.bnd then (oppq.length : Int) else balance) = 0
    · rw [glInner, if_pos hc] at h
      simp at h
      rw [← h.1, ← h.2]
      exact hIE
    · rw [glInner, if_neg hc] at h
      split at h
      · simp at h
        rw [← h.1, ← h.2]
        exact hIE
      · rename_i e1 e2 e3 opp rest hpop
        have hrest : rest.length ≤ n := by
          have := popMinBy_length oppEntryLe oppq _ _ hpop
          omega
        have hmem := (popMinBy_some oppEntryLe oppq _ _ hpop).1
        have hrq := (popMinBy_some oppEntryLe oppq _ _ hpop).2
        have hoppne : opp ≠ team := hne _ hmem
        have hcons : (((e1, e2, e3, opp) :: rest).map
            (fun e : OppEntry => e.2.2.2)).Nodup :=
          ((popMinBy_perm oppEntryLe oppq _ _ hpop).map
            (fun e : OppEntry => e.2.2.2)).nodup_iff.1 hnd
        simp only [List.map_cons] at hcons
        obtain ⟨hnotin, hnd1⟩ := List.nodup_cons.1 hcons
        split at h
        · cases h
        · rename_i balance' st1 hcall
          have hIE1 := glInnerStep_bal info schedule truthy team setting adjustment opp balance
            st hadj hset hoppne (hfr _ hmem) hpair hIE balance' st1 hcall
          have hpair1 := glInnerStep_pair schedule truthy team setting adjustment opp balance st
            hoppne hpair balance' st1 hcall
          obtain ⟨stgTeam, stgOpp, oi, hstg, hsO, hiO, hS, hI, hC, hB⟩ :=
            glInnerStep_settings schedule truthy team setting adjustment opp balance st hoppne
              balance' st1 hcall
          have hne1 : ∀ e ∈ rest, e.2.2.2 ≠ team := by
            intro e heR
            refine hne e ?_
            rw [hrq] at heR
            exact mem_of_mem_eraseFirst heR
          have hfr1 : ∀ e ∈ rest, dlookup2 st1.settings team e.2.2.2 = none := by
            intro e heR
            have heO : e ∈ oppq := by
              rw [hrq] at heR
              exact mem_of_mem_eraseFirst heR
            have heneopp : e.2.2.2 ≠ opp := by
              intro hcon
              exact hnotin (hcon ▸ List.mem_map_of_mem _ heR)
            rw [hS, dlookup2_dset_row, if_neg (Ne.symm hoppne), dlookup2_dset_row,
              if_pos rfl, dlookup_dset_ne stgTeam opp _ _ heneopp]
            have hx := hfr e heO
            simp only [dlookup2, hstg] at hx
            exact hx
          exact ih rest balance' st1 hrest hne1 hfr1 hnd1 hpair1 hIE1 b' st' h

theorem buildOppPq_bal (prefs : Requests) (respect truthy : Bool) (team : Team)
    (adjustment balance : Int) :
    ∀ (l : List (Team × Nat)) (st : GLState) (acc : List OppEntry)
      (q : List OppEntry) (st' : GLState),
      (∀ p ∈ l, p.1 ≠ team) →
      (l.map Prod.fst).Nodup →
      (∀ e ∈ acc, e.2.2.2 ≠ team) →
      (∀ e ∈ acc, dlookup2 st.settings team e.2.2.2 = none) →
      (acc.map (fun e : OppEntry => e.2.2.2)).Nodup →
      (∀ e ∈ acc, e.2.2.2 ∉ l.map Prod.fst) →
      buildOppPq prefs respect truthy team adjustment balance l st acc = .ok (q, st') →
      st'.settings = st.settings ∧ st'.info = st.info ∧ st'.cpu = st.cpu ∧
      (∀ e ∈ q, e.2.2.2 ≠ team) ∧
      (∀ e ∈ q, dlookup2 st.settings team e.2.2.2 = none) ∧
      (q.map (fun e : OppEntry => e.2.2.2)).Nodup := by
  intro l
  induction l with
  | nil =>
    intro st acc q st' hl hlnd hacc1 hacc2 hacc3 hdisj h
    rw [buildOppPq] at h
    simp only [Except.ok.injEq, Prod.mk.injEq] at h
    obtain ⟨hq, hst⟩ := h
    rw [← hq, ← hst]
    exact ⟨rfl, rfl, rfl, hacc1, hacc2, hacc3⟩
  | cons p rest ih =>
    intro st acc q st' hl hlnd hacc1 hacc2 hacc3 hdisj h
    obtain ⟨opp, nn⟩ := p
    simp only [List.map_cons] at hlnd hdisj
    obtain ⟨hopprest, hlnd'⟩ := List.nodup_cons.1 hlnd
    rw [buildOppPq] at h
    dsimp only at h
    split at h
    · cases h
    · rename_i stgTeam hstg
      split at h
      · exact ih st acc q st' (fun p hp => hl p (List.mem_cons_of_mem _ hp)) hlnd'
          hacc1 hacc2 hacc3
          (fun e he hc => hdisj e he (List.mem_cons_of_mem _ hc)) h
      · rename_i hflt
        split at h
        · cases h
        · rename_i pref hpref
          split at h
          · cases h
          · rename_i oi hoi
            have hnone : dlookup stgTeam opp = none := by
              cases hval : dlookup stgTeam opp with
              | none => rfl
              | some wv =>
                rw [hval] at hflt
                simp at hflt
            have hoppfresh : dlookup2 st.settings team opp = none := by
              simp only [dlookup2, hstg]
              exact hnone
            have hoppacc : opp ∉ acc.map (fun e : OppEntry => e.2.2.2) := by
              intro hc
              obtain ⟨e, he, hfe⟩ := List.mem_map.1 hc
              exact hdisj e he (by rw [hfe]; exact List.mem_cons_self _ _)
            obtain ⟨r1, r2, r3, r4, r5, r6⟩ := ih _ _ q st'
              (fun p hp => hl p (List.mem_cons_of_mem _ hp)) hlnd'
              (fun e he => by
                rcases List.mem_cons.1 he with he' | he'
                · rw [he']
                  exact hl (opp, nn) (List.mem_cons_self _ _)
                · exact hacc1 e he')
              (fun e he => by
                rcases List.mem_cons.1 he with he' | he'
                · rw [he']
                  exact hoppfresh
                · exact hacc2 e he')
              (by
                simp only [List.map_cons]
                exact List.nodup_cons.2 ⟨hoppacc, hacc3⟩)
              (fun e he => by
                rcases List.mem_cons.1 he with he' | he'
                · rw [he']
                  exact hopprest
                · intro hc
                  exact hdisj e he' (List.mem_cons_of_mem _ hc)) h
            exact ⟨r1, r2, r3, r4, r5, r6⟩

theorem glAbsorb_bal (info : Avail) (team : Team) (si : SInfo) (st : GLState)
    (hsi : dlookup st.info team = some si)
    (hinv : GLIdent info st) :
    ∀ st', glAbsorb team si st = .ok st' → GLIdent info st' := by
  intro st' h
  rw [glAbsorb] at h
  dsimp only at h
  split at h
  · split at h
    · cases h
    · rename_i cg hcg
      injection h with he
      rw [← he]
      intro t si2 hsi2
      dsimp only at hsi2 ⊢
      by_cases ht : t = team
      · rw [ht] at hsi2 ⊢
        rw [dlookup_dset_self] at hsi2
        injection hsi2 with hsi2
        rw [← hsi2]
        rw [cpuBalQ_dset, if_pos rfl]
        have hold := hinv team si hsi
        have hcgv : cpuBalQ st.cpu team = cg.home - cg.away := by
          simp [cpuBalQ, hcg]
        rw [hcgv] at hold
        by_cases hb : si.balance < 0
        · rw [if_pos hb] at hsi2 ⊢
          simp only [if_pos hb]
          norm_num
          linarith
        · rw [if_neg hb] at hsi2 ⊢
          simp only [if_neg hb]
          norm_num
          linarith
      · rw [dlookup_dset_ne st.info team t _ ht] at hsi2
        rw [cpuBalQ_dset, if_neg ht]
        exact hinv t si2 hsi2
  · injection h with he
    rw [← he]
    exact hinv

theorem glInit_bal (info : Avail) (truthy : Bool) :
    ∀ (l : List (Team × Dict Team Nat)) (st st' : GLState),
      (∀ t, rowBalQ st.settings t = 0) →
      (∀ t, cpuBalQ st.cpu t = 0) →
      GLIdent info st →
      glInit truthy l st = .ok st' →
      (∀ t, rowBalQ st'.settings t = 0) ∧ (∀ t, cpuBalQ st'.cpu t = 0) ∧
        GLIdent info st' := by
  intro l
  induction l with
  | nil =>
    intro st st' h1 h2 h3 h
    rw [glInit] at h
    injection h with he
    rw [← he]
    exact ⟨h1, h2, h3⟩
  | cons p rest ih =>
    intro st st' h1 h2 h3 h
    obtain ⟨team, games⟩ := p
    rw [glInit] at h
    dsimp only at h
    split at h
    · cases h
    · rename_i si hsi
      have e1 : ∀ t, rowBalQ (dset st.settings team []) t = 0 := by
        intro t
        rw [rowBalQ_dset_row]
        split
        · simp [rowBal]
        · exact h1 t
      have e2 : ∀ t, cpuBalQ (dset st.cpu team ⟨0, 0⟩) t = 0 := by
        intro t
        rw [cpuBalQ_dset]
        split
        · norm_num
        · exact h2 t
      refine ih _ st' (fun t => e1 t) (fun t => e2 t) ?_ h
      intro t si2 hsi2
      show (si2.balance : Rat) = initBalQ info t + rowBalQ (dset st.settings team []) t
        + cpuBalQ (dset st.cpu team ⟨0, 0⟩) t
      rw [e1 t, e2 t]
      have h0 := h3 t si2 hsi2
      rw [h1 t, h2 t] at h0
      exact h0

theorem glLoopStep_bal (info : Avail) (schedule : Schedule) (prefs : Requests)
    (respect truthy : Bool) (team : Team) (st : GLState)
    (hirr : ∀ t, dlookup2 schedule t t = none)
    (hrows : ∀ t games, dlookup schedule t = some games → (games.map Prod.fst).Nodup)
    (hpair : PairInv st.settings)
    (hinv : GLIdent info st) :
    ∀ st', glLoopStep schedule prefs respect truthy team st = .ok st' →
      GLIdent info st' := by
  intro st' h
  rw [glLoopStep] at h
  split at h
  any_goals solve | (apply absurd h; simp)
  rename_i si games h1 h2
  dsimp only at h
  split at h
  any_goals solve | (apply absurd h; simp)
  rename_i stA hab
  have hinvA : GLIdent info stA := glAbsorb_bal info team si st h1 hinv stA hab
  have hpairA : PairInv stA.settings := by
    rw [glAbsorb_settings team si st stA hab]
    exact hpair
  split at h
  any_goals solve | (apply absurd h; simp)
  rename_i si' stgTeam h3 h4
  try dsimp only at h
  split at h
  · split at h
    · injection h with he
      rw [← he]
      exact fun t si2 hsi2 => hinvA t si2 hsi2
    · injection h with he
      rw [← he]
      exact fun t si2 hsi2 => hinvA t si2 hsi2
  · split at h
    any_goals solve | (apply absurd h; simp)
    rename_i oppq stB hbq
    have hl : ∀ p ∈ games, p.1 ≠ team := by
      intro p hp hpc
      have hks : p.1 ∈ dkeys games := List.mem_map.2 ⟨p, hp, rfl⟩
      have hsome := dlookup_isSome_of_mem_dkeys games p.1 hks
      have hnone : dlookup games team = none := by
        have hx := hirr team
        simp only [dlookup2, h2] at hx
        exact hx
      rw [hpc, hnone] at hsome
      simp at hsome
    have hrownd : (games.map Prod.fst).Nodup := hrows team games h2
    obtain ⟨hsB, hiB, hcB, hq1, hq2, hq3⟩ := buildOppPq_bal prefs respect truthy team _ _
      games stA [] oppq stB hl hrownd (by simp) (by simp) (by simp) (by simp) hbq
    have hpairB : PairInv stB.settings := by
      rw [hsB]
      exact hpairA
    have hinvB : GLIdent info stB := by
      intro t si2 hsi2
      rw [hiB] at hsi2
      rw [hsB, hcB]
      exact hinvA t si2 hsi2
    split at h
    · cases h
    · rename_i balance' stC hin
      have hIE : GLIdentExcept info team si'.balance stB := by
        constructor
        · intro t ht si2 hsi2
          exact hinvB t si2 hsi2
        · exact hinvB team si' (by rw [hiB]; exact h3)
      have hadj : (if si.balance < 0 then (1 : Int) else -1) = 1 ∨
          (if si.balance < 0 then (1 : Int) else -1) = -1 := by
        split
        · exact Or.inl rfl
        · exact Or.inr rfl
      have hq2B : ∀ e ∈ oppq, dlookup2 stB.settings team e.2.2.2 = none := by
        rw [hsB]
        exact hq2
      have hIEC := glInner_bal info schedule truthy team _ _ hadj rfl oppq.length oppq
        si'.balance stB (le_refl _) hq1 hq2B hq3 hpairB hIE balance' stC hin
      split at h
      any_goals cases h
      rename_i si'' stgTeam' h5 h6
      have hinvD : GLIdent info
          { stC with info := dset stC.info team { si'' with balance := balance' } } := by
        intro t si2 hsi2
        dsimp only at hsi2 ⊢
        by_cases ht : t = team
        · rw [ht] at hsi2 ⊢
          rw [dlookup_dset_self] at hsi2
          injection hsi2 with hsi2
          rw [← hsi2]
          exact hIEC.2
        · rw [dlookup_dset_ne stC.info team t _ ht] at hsi2
          exact hIEC.1 t ht si2 hsi2
      split at h <;>
        (simp only [Except.ok.injEq] at h
         rw [← h]
         exact fun t si2 hsi2 => hinvD t si2 hsi2)

theorem glLoop_bal (info : Avail) (schedule : Schedule) (prefs : Requests)
    (respect truthy : Bool)
    (hirr : ∀ t, dlookup2 schedule t t = none)
    (hrows : ∀ t games, dlookup schedule t = some games → (games.map Prod.fst).Nodup) :
    ∀ (fuel : Nat) (st : GLState), PairInv st.settings → GLIdent info st →
      ∀ st', glLoop schedule prefs respect truthy fuel st = .ok st' →
        GLIdent info st' := by
  intro fuel
  induction fuel with
  | zero =>
    intro st hpair hinv st' h
    rw [glLoop] at h
    split at h
    · injection h with he
      rw [← he]
      exact hinv
    · cases h
  | succ n ih =>
    intro st hpair hinv st' h
    rw [glLoop] at h
    split at h
    · injection h with he
      rw [← he]
      exact hinv
    · rename_i e1 e2 team pqRest hpop
      split at h
      · cases h
      · rename_i st1 hcall
        have hpair' : PairInv ({ st with pq := pqRest } : GLState).settings := hpair
        have hinv' : GLIdent info { st with pq := pqRest } :=
          fun t si2 hsi2 => hinv t si2 hsi2
        refine ih st1 ?_ ?_ st' h
        · exact glLoopStep_pair schedule prefs respect truthy team { st with pq := pqRest }
            hirr hpair' st1 hcall
        · exact glLoopStep_bal info schedule prefs respect truthy team { st with pq := pqRest }
            hirr hrows hpair' hinv' st1 hcall

theorem cpuBalQ_congr {c1 c2 : Dict Team CpuG} {t : Team}
    (h : dlookup c1 t = dlookup c2 t) : cpuBalQ c1 t = cpuBalQ c2 t := by
  unfold cpuBalQ
  rw [h]

theorem glFinal1_frame (team : Team) (st : GLState) (errors : Dict Team Rat) :
    ∀ st1 errors1, glFinal1 team st errors = .ok (st1, errors1) →
      ∀ k, k ≠ team →
        dlookup st1.cpu k = dlookup st.cpu k ∧ dlookup errors1 k = dlookup errors k := by
  intro st1 errors1 h k hk
  rw [glFinal1] at h
  split at h
  any_goals solve | (apply absurd h; simp)
  rename_i si cg h7 h8
  dsimp only at h
  split at h
  · exact absurd h (by simp)
  · rename_i hnn
    repeat' split at h
    all_goals (
      simp only [Except.ok.injEq, Prod.mk.injEq] at h
      refine ⟨?_, ?_⟩
      · rw [← h.1]
        exact dlookup_dset_ne st.cpu team k _ hk
      · first
          | (rw [← h.2]
             rw [dlookup_dset_ne errors team k _ hk])
          | rw [← h.2])

set_option maxHeartbeats 1600000 in
theorem glFinal1_ident (info : Avail) (team : Team) (st : GLState) (errors : Dict Team Rat)
    (hInvT : ∀ si, dlookup st.info team = some si →
      (si.balance : Rat) = initBalQ info team + rowBalQ st.settings team
        + cpuBalQ st.cpu team) :
    ∀ st1 errors1, glFinal1 team st errors = .ok (st1, errors1) →
      dlookup errors1 team = none →
      initBalQ info team + rowBalQ st1.settings team + cpuBalQ st1.cpu team = 0 := by
  intro st1 errors1 h hnone
  rw [glFinal1] at h
  split at h
  any_goals solve | (apply absurd h; simp)
  rename_i si cg h7 h8
  dsimp only at h
  split at h
  · exact absurd h (by simp)
  · rename_i hnn
    split at h
    · rename_i hbz
      repeat' split at h
      any_goals solve | (exfalso; norm_num at *) | (exfalso; norm_num at *; linarith)
      all_goals (
        simp only [Except.ok.injEq, Prod.mk.injEq] at h
        obtain ⟨hst1, herr⟩ := h
        rw [← herr] at hnone
        first
          | (rw [dlookup_dset_self] at hnone
             cases hnone)
          | (rw [← hst1]
             simp only [ne_eq, not_not] at *
             have hold := hInvT si h7
             have hcpu : cpuBalQ st.cpu team = cg.home - cg.away := by
               simp [cpuBalQ, h8]
             rw [hcpu] at hold
             try rw [hbz] at hold
             try push_cast at hold
             show initBalQ info team + rowBalQ st.settings team
               + cpuBalQ (dset st.cpu team _) team = 0
             rw [cpuBalQ_dset, if_pos rfl]
             dsimp only
             linarith))
    · rename_i hbnz
      repeat' split at h
      any_goals solve | (exfalso; norm_num at *) | (exfalso; norm_num at *; linarith)
      all_goals (
        simp only [Except.ok.injEq, Prod.mk.injEq] at h
        obtain ⟨hst1, herr⟩ := h
        rw [← herr] at hnone
        first
          | (rw [dlookup_dset_self] at hnone
             cases hnone)
          | (rw [← hst1]
             simp only [ne_eq, not_not] at *
             have hold := hInvT si h7
             have hcpu : cpuBalQ st.cpu team = cg.home - cg.away := by
               simp [cpuBalQ, h8]
             rw [hcpu] at hold
             show initBalQ info team + rowBalQ st.settings team
               + cpuBalQ (dset st.cpu team _) team = 0
             rw [cpuBalQ_dset, if_pos rfl]
             dsimp only
             linarith))

theorem glFinal_frame :
    ∀ (l : List (Team × Dict Team Nat)) (st : GLState) (errors : Dict Team Rat)
      (st' : GLState) (errors' : Dict Team Rat),
      glFinal l st errors = .ok (st', errors') →
      ∀ k, k ∉ l.map Prod.fst →
        dlookup st'.cpu k = dlookup st.cpu k ∧ dlookup errors' k = dlookup errors k := by
  intro l
  induction l with
  | nil =>
    intro st errors st' errors' h k hk
    rw [glFinal] at h
    simp only [Except.ok.injEq, Prod.mk.injEq] at h
    rw [← h.1, ← h.2]
    exact ⟨rfl, rfl⟩
  | cons p rest ih =>
    intro st errors st' errors' h k hk
    obtain ⟨team, games⟩ := p
    simp only [List.map_cons] at hk
    have hk1 : k ≠ team := fun hc => hk (by rw [hc]; exact List.mem_cons_self _ _)
    have hk2 : k ∉ rest.map Prod.fst := fun hc => hk (List.mem_cons_of_mem _ hc)
    rw [glFinal] at h
    split at h
    · cases h
    · rename_i st1 errors1 hcall
      obtain ⟨c1, c2⟩ := ih st1 errors1 st' errors' h k hk2
      obtain ⟨d1, d2⟩ := glFinal1_frame team st errors st1 errors1 hcall k hk1
      exact ⟨c1.trans d1, c2.trans d2⟩

theorem glFinal_ident (info : Avail) :
    ∀ (l : List (Team × Dict Team Nat)) (st : GLState) (errors : Dict Team Rat)
      (st' : GLState) (errors' : Dict Team Rat),
      (l.map Prod.fst).Nodup →
      (∀ p ∈ l, ∀ si, dlookup st.info p.1 = some si →
        (si.balance : Rat) = initBalQ info p.1 + rowBalQ st.settings p.1
          + cpuBalQ st.cpu p.1) →
      glFinal l st errors = .ok (st', errors') →
      ∀ t, t ∈ l.map Prod.fst → dlookup errors' t = none →
        initBalQ info t + rowBalQ st'.settings t + cpuBalQ st'.cpu t = 0 := by
  intro l
  induction l with
  | nil =>
    intro st errors st' errors' hnd hInv h t ht
    simp at ht
  | cons p rest ih =>
    intro st errors st' errors' hnd hInv h t ht hnone
    obtain ⟨team, games⟩ := p
    simp only [List.map_cons] at hnd ht
    obtain ⟨hnotin, hnd'⟩ := List.nodup_cons.1 hnd
    rw [glFinal] at h
    split at h
    · cases h
    · rename_i st1 errors1 hcall
      rcases List.mem_cons.1 ht with hteq | htmem
      · obtain ⟨hc1, hc2⟩ := glFinal_frame rest st1 errors1 st' errors' h team hnotin
        rw [hteq] at hnone ⊢
        rw [hc2] at hnone
        have hid := glFinal1_ident info team st errors
          (fun si hsi => hInv (team, games) (List.mem_cons_self _ _) si hsi)
          st1 errors1 hcall hnone
        rw [glFinal_settings rest st1 errors1 st' errors' h, cpuBalQ_congr hc1]
        exact hid
      · refine ih st1 errors1 st' errors' hnd' ?_ h t htmem hnone
        intro p hp si hsi
        have hpne : p.1 ≠ team := fun hc => hnotin (hc ▸ List.mem_map_of_mem _ hp)
        rw [glFinal1_info team st errors st1 errors1 hcall] at hsi
        have h0 := hInv p (List.mem_cons_of_mem _ hp) si hsi
        rw [glFinal1_settings team st errors st1 errors1 hcall]
        rw [cpuBalQ_congr ((glFinal1_frame team st errors st1 errors1 hcall p.1 hpne).1)]
        exact h0

/-- C4: for every team of the input Schedule that the final Error Report of
set_game_locations leaves untouched, the accounting identity holds: the
balance the team entered with, plus its home-minus-away count over the
returned Location Assignment, plus its filler home games minus filler away
games, sums to zero.  The hypotheses record the upstream invariants of the
Schedule: no team plays itself and no duplicated keys. -/
theorem balance_convergence (schedule : Schedule) (info : Avail) (prefs : Requests)
    (respect : Bool) (seedArg : Option Int) (g : RNG) (fuel : Nat)
    (stgs : Dict Team (Dict Team Bool)) (cpu : Dict Team CpuG) (err : Dict Team Rat)
    (hirr : ∀ t, dlookup2 schedule t t = none)
    (hrows : ∀ t games, dlookup schedule t = some games → (games.map Prod.fst).Nodup)
    (hnd : (schedule.map Prod.fst).Nodup)
    (hok : set_game_locations schedule info prefs respect seedArg g fuel
      = .ok (stgs, cpu, err)) :
    ∀ t, t ∈ schedule.map Prod.fst → dlookup err t = none →
      initBalQ info t + rowBalQ stgs t + cpuBalQ cpu t = 0 := by
  intro t ht hnone
  rw [set_game_locations.eq_def] at hok
  dsimp only at hok
  split at hok
  · cases hok
  · rename_i st1 hinit
    split at hok
    · cases hok
    · rename_i st2 hloop
      split at hok
      · cases hok
      · rename_i st3 errs hfin
        simp only [Except.ok.injEq, Prod.mk.injEq] at hok
        have h3' : GLIdent info
            { info := info.map
                (fun p => (p.1, (⟨p.2.balance, (p.2.free_weeks.length : Int)⟩ : SInfo))),
              settings := [], cpu := [], seeds := [], pq := [], bnd := [],
              rng := g } := by
          intro u si hsi
          show (si.balance : Rat) = initBalQ info u + rowBalQ [] u + cpuBalQ [] u
          rw [dlookup_info_reduced] at hsi
          cases hr : dlookup info u with
          | none =>
            rw [hr] at hsi
            cases hsi
          | some r =>
            rw [hr] at hsi
            simp only [Option.map_some'] at hsi
            injection hsi with hsi
            rw [← hsi]
            simp [initBalQ, hr, rowBalQ, cpuBalQ, dlookup]
        have hglinit : (∀ u, rowBalQ st1.settings u = 0) ∧ (∀ u, cpuBalQ st1.cpu u = 0) ∧
            GLIdent info st1 := by
          refine glInit_bal info _ schedule _ st1 ?_ ?_ h3' hinit
          · intro u
            rfl
          · intro u
            rfl
        obtain ⟨hz1, hz2, hIdent1⟩ := hglinit
        have hEmpty1 : EmptyPairs st1.settings := by
          refine glInit_pairs _ schedule _ st1 ?_ hinit
          intro a b
          rfl
        have hIdent2 : GLIdent info st2 :=
          glLoop_bal info schedule prefs respect _ hirr hrows fuel st1
            (emptyPairs_pairInv hEmpty1) hIdent1 st2 hloop
        have hfinal := glFinal_ident info schedule st2 [] st3 errs hnd
          (fun p hp si hsi => hIdent2 p.1 si hsi) hfin
        have hres := hfinal t ht (by rw [hok.2.2]; exact hnone)
        rw [← hok.1, ← hok.2.1]
        exact hres

theorem balance_convergence_witness :
    initBalQ [(6, ⟨0, [8, 9]⟩), (7, ⟨0, [8, 9]⟩)] 6
      + rowBalQ [(6, []), (7, [])] 6
      + cpuBalQ [(6, ⟨0, 0⟩), (7, ⟨0, 0⟩)] 6 = 0 :=
  balance_convergence [(6, [(7, 2)]), (7, [(6, 2)])] [(6, ⟨0, [8, 9]⟩), (7, ⟨0, [8, 9]⟩)]
    [] false none zeroRng 1
    [(6, []), (7, [])] [(6, ⟨0, 0⟩), (7, ⟨0, 0⟩)] []
    (by
      intro t
      simp only [dlookup2, dlookup]
      split_ifs with h1 h2
      · rw [← h1]
        rfl
      · rw [← h2]
        rfl
      · rfl)
    (by
      intro t games h
      simp only [dlookup] at h
      split_ifs at h
      all_goals first
        | (injection h with h
           rw [← h]
           decide)
        | cases h)
    (by decide)
    (by norm_num [set_game_locations, glInit, glLoop, glLoopStep, glAbsorb, glFinal,
      glFinal1, glDraw, popMinBy, undecided, eraseFirst, dlookup, dset, zeroRng])
    6 (by decide) rfl

/-! ## C1, C2, C5: the find_schedule loop invariant -/

theorem mem_of_dlookup_eq {α β : Type} [DecidableEq α] {d : Dict α β} {k : α} {v : β}
    (h : dlookup d k = some v) : (k, v) ∈ d := by
  induction d with
  | nil => cases h
  | cons p rest ih =>
    obtain ⟨a, b⟩ := p
    rw [dlookup] at h
    by_cases ha : a = k
    · rw [if_pos ha] at h
      injection h with h
      rw [← ha, ← h]
      exact List.mem_cons_self _ _
    · rw [if_neg ha] at h
      exact List.mem_cons_of_mem _ (ih h)

theorem dlookup_of_mem_nodup {α β : Type} [DecidableEq α] {d : Dict α β} {k : α} {v : β}
    (hnd : (dkeys d).Nodup) (h : (k, v) ∈ d) : dlookup d k = some v := by
  induction d with
  | nil => cases h
  | cons p rest ih =>
    obtain ⟨a, b⟩ := p
    simp only [dkeys, List.map_cons] at hnd
    obtain ⟨hna, hnd'⟩ := List.nodup_cons.1 hnd
    rcases List.mem_cons.1 h with he | he
    · injection he with he1 he2
      rw [dlookup, if_pos he1.symm ]
      rw [he2]
    · rw [dlookup]
      have hak : ¬a = k := by
        intro hc
        exact hna (hc ▸ List.mem_map_of_mem Prod.fst he)
      rw [if_neg hak]
      exact ih hnd' he

theorem mem_ddel {α β : Type} [DecidableEq α] {d : Dict α β} {k : α} {p : α × β}
    (h : p ∈ ddel d k) : p ∈ d := by
  induction d with
  | nil => simpa [ddel] using h
  | cons q rest ih =>
    obtain ⟨a, b⟩ := q
    simp only [ddel] at h
    by_cases ha : a = k
    · rw [if_pos ha] at h
      exact List.mem_cons_of_mem _ h
    · rw [if_neg ha] at h
      rcases List.mem_cons.1 h with he | he
      · rw [he]
        exact List.mem_cons_self _ _
      · exact List.mem_cons_of_mem _ (ih he)

theorem dkeys_ddel_sublist {α β : Type} [DecidableEq α] (d : Dict α β) (k : α) :
    List.Sublist (dkeys (ddel d k)) (dkeys d) := by
  induction d with
  | nil => simp [ddel, dkeys]
  | cons q rest ih =>
    obtain ⟨a, b⟩ := q
    simp only [ddel]
    by_cases ha : a = k
    · rw [if_pos ha]
      exact List.sublist_cons_self a (dkeys rest)
    · rw [if_neg ha]
      simp only [dkeys, List.map_cons]
      exact List.Sublist.cons₂ a ih

theorem dkeys_ddel_nodup {α β : Type} [DecidableEq α] {d : Dict α β} (k : α)
    (h : (dkeys d).Nodup) : (dkeys (ddel d k)).Nodup :=
  (dkeys_ddel_sublist d k).nodup h

theorem mem_ddel_key_ne {α β : Type} [DecidableEq α] {d : Dict α β} {k : α} {p : α × β}
    (hnd : (dkeys d).Nodup) (h : p ∈ ddel d k) : p.1 ≠ k := by
  intro hc
  have hmem : p.1 ∈ dkeys (ddel d k) := List.mem_map_of_mem Prod.fst h
  have hs := dlookup_isSome_of_mem_dkeys (ddel d k) p.1 hmem
  rw [hc, dlookup_ddel_self d k hnd] at hs
  cases hs

theorem ddel2_spec {r : Requests} {a b : Team} {r' : Requests}
    (h : ddel2 r a b = some r') :
    ∃ inner, dlookup r a = some inner ∧ (dlookup inner b).isSome ∧
      r' = dset r a (ddel inner b) := by
  rw [ddel2] at h
  split at h
  · cases h
  · rename_i inner hinner
    split at h
    · injection h with h
      exact ⟨inner, hinner, by assumption, h.symm⟩
    · cases h

theorem mem_eraseFirst_of_ne {α : Type} [DecidableEq α] {x y : α} {l : List α}
    (h : x ∈ l) (hne : x ≠ y) : x ∈ eraseFirst y l := by
  induction l with
  | nil => cases h
  | cons a rest ih =>
    simp only [eraseFirst]
    by_cases ha : a = y
    · rw [if_pos ha]
      rcases List.mem_cons.1 h with he | he
      · exact absurd (he.trans ha) hne
      · exact he
    · rw [if_neg ha]
      rcases List.mem_cons.1 h with he | he
      · rw [he]
        exact List.mem_cons_self _ _
      · exact List.mem_cons_of_mem _ (ih he)

/-- Loop invariant of find_schedule, relative to the original Request Graph
requests0 and the Availability info.  Each field records one property the
while-loop of lines 130-194 maintains. -/
structure FSInv (requests0 : Requests) (info : Avail) (st : FSState) : Prop where
  pqNodup : (st.pq.map (fun e : FSEntry => e.2.2)).Nodup
  pqSync : ∀ e ∈ st.pq, dlookup st.prio e.2.2 = some e.1 ∧
      dlookup st.seeds e.2.2 = some e.2.1
  pqCanon : ∀ e ∈ st.pq, e.2.2.1 < e.2.2.2
  pqReq : ∀ e ∈ st.pq, (dlookup2 st.requests e.2.2.1 e.2.2.2).isSome ∧
      (dlookup2 st.requests e.2.2.2 e.2.2.1).isSome
  pqCfw : ∀ e ∈ st.pq, (dlookup st.cfw e.2.2).isSome
  cfwSub : ∀ m ws, dlookup st.cfw m = some ws → ∀ w ∈ ws,
      (∃ ti, dlookup info m.1 = some ti ∧ w ∈ ti.free_weeks) ∧
      (∃ ti, dlookup info m.2 = some ti ∧ w ∈ ti.free_weeks)
  pqClash : ∀ e ∈ st.pq, ∀ ws, dlookup st.cfw e.2.2 = some ws →
      ∀ a b w, dlookup2 st.schedule a b = some w → (a = e.2.2.1 ∨ a = e.2.2.2) → w ∉ ws
  schedFree : ∀ a b w, dlookup2 st.schedule a b = some w →
      (∃ ti, dlookup info a = some ti ∧ w ∈ ti.free_weeks) ∧
      (∃ ti, dlookup info b = some ti ∧ w ∈ ti.free_weeks)
  schedDistinct : ∀ a b c wb wc, b ≠ c → dlookup2 st.schedule a b = some wb →
      dlookup2 st.schedule a c = some wc → wb ≠ wc
  reqSym : ∀ t row, dlookup st.requests t = some row → ∀ p ∈ row,
      (dlookup2 st.requests p.1 t).isSome
  reqSub : ∀ t row, dlookup st.requests t = some row → ∀ p ∈ row,
      (dlookup2 requests0 t p.1).isSome
  reqKnown : ∀ t row, dlookup st.requests t = some row →
      (dlookup info t).isSome ∧ ∀ p ∈ row, (dlookup info p.1).isSome
  reqIrr : ∀ t row, dlookup st.requests t = some row → ∀ p ∈ row, p.1 ≠ t
  reqRowsNodup : ∀ t row, dlookup st.requests t = some row → (row.map Prod.fst).Nodup
  reqKeysNodup : (dkeys st.requests).Nodup
  reqCfw : ∀ t row, dlookup st.requests t = some row → ∀ p ∈ row,
      (dlookup st.cfw (matchupOf t p.1)).isSome ∧
      (dlookup st.prio (matchupOf t p.1)).isSome ∧
      (dlookup st.seeds (matchupOf t p.1)).isSome
  reqUnsched : ∀ t row, dlookup st.requests t = some row → ∀ p ∈ row,
      dlookup2 st.schedule t p.1 = none
  pqNoErr : ∀ e ∈ st.pq, dlookup st.errors e.2.2 = none
  pqNoSched : ∀ e ∈ st.pq, dlookup2 st.schedule e.2.2.1 e.2.2.2 = none
  errMsg : ∀ m v, dlookup st.errors m = some v → v = "No overlapping free weeks"
  errCanon : ∀ m v, dlookup st.errors m = some v → m.1 < m.2
  errNoSched : ∀ m v, dlookup st.errors m = some v →
      dlookup2 st.schedule m.1 m.2 = none ∧ dlookup2 st.schedule m.2 m.1 = none
  errCfwNil : ∀ m v, dlookup st.errors m = some v → dlookup st.cfw m = some []
  cover : ∀ t row, dlookup requests0 t = some row → ∀ p ∈ row,
      (dlookup info p.1).isSome →
      (∃ e ∈ st.pq, e.2.2 = matchupOf t p.1) ∨
      (dlookup2 st.schedule t p.1).isSome ∨
      (dlookup st.errors (matchupOf t p.1)).isSome

theorem matchupOf_lt {a b : Team} (h : a ≠ b) :
    (matchupOf a b).1 < (matchupOf a b).2 := by
  simp only [matchupOf]
  rcases Nat.lt_or_ge a b with hl | hl
  · simp [min_eq_left hl.le, max_eq_right hl.le, hl]
  · have hlt : b < a := Nat.lt_of_le_of_ne hl (fun hc => h hc.symm)
    simp [min_eq_right hlt.le, max_eq_left hlt.le, hlt]

theorem matchupOf_comm (a b : Team) : matchupOf a b = matchupOf b a := by
  simp [matchupOf, min_comm, max_comm]

theorem matchupOf_canon {m : Matchup} (h : m.1 < m.2) : matchupOf m.1 m.2 = m := by
  obtain ⟨a, b⟩ := m
  simp only [matchupOf] at *
  simp [min_eq_left h.le, max_eq_right h.le]

theorem matchupOf_pair {a b : Team} :
    (matchupOf a b).1 = a ∧ (matchupOf a b).2 = b ∨
    (matchupOf a b).1 = b ∧ (matchupOf a b).2 = a := by
  simp only [matchupOf]
  rcases Nat.le_total a b with hl | hl
  · left
    simp [min_eq_left hl, max_eq_right hl]
  · right
    simp [min_eq_right hl, max_eq_left hl]

end CFB
